import Mathlib

/-!
Verification development for the CMSIS-Pack device-description resolution
engine (`cmsis_pack.py`).  The Python code is shallowly embedded: XML
elements become an `Element` tree, Python dicts become insertion-ordered
association lists with dict semantics, exceptions become `Except`, and the
category merge policies, memory/flash region synthesis and debug topology
resolution are translated function by function from the source.
-/

namespace CmsisPackModel

/-! ## Insertion-ordered dictionaries (Python `dict` semantics) -/

/-- Python `d.get(k)` / `d[k]`: the binding for `k` (keys of a dict are unique,
so the first binding is the binding). -/
def dget {α : Type} [DecidableEq α] {β : Type} : List (α × β) → α → Option β
  | [], _ => none
  | (k0, v0) :: rest, k => if k0 = k then some v0 else dget rest k

/-- Python `k in d`. -/
def dmem {α : Type} [DecidableEq α] {β : Type} (d : List (α × β)) (k : α) : Bool :=
  (dget d k).isSome

/-- Python `d[k] = v`: replace the value in place if the key exists, otherwise
append the new binding at the end (dicts preserve insertion order). -/
def dset {α : Type} [DecidableEq α] {β : Type} : List (α × β) → α → β → List (α × β)
  | [], k, v => [(k, v)]
  | (k0, v0) :: rest, k, v =>
    if k0 = k then (k0, v) :: rest else (k0, v0) :: dset rest k v

/-- Python `del d[k]`: drop the binding for `k`. -/
def ddel {α : Type} [DecidableEq α] {β : Type} : List (α × β) → α → List (α × β)
  | [], _ => []
  | (k0, v0) :: rest, k => if k0 = k then rest else (k0, v0) :: ddel rest k

/-- Python `list(d.keys())`. -/
def dkeys {α β : Type} (d : List (α × β)) : List α := d.map Prod.fst

/-- Python `list(d.values())`. -/
def dvalues {α β : Type} (d : List (α × β)) : List β := d.map Prod.snd

/-- Python `d.update(other)`: assign every binding of `other` into `d`. -/
def dictUpdate {α : Type} [DecidableEq α] {β : Type}
    (d other : List (α × β)) : List (α × β) :=
  other.foldl (fun acc kv => dset acc kv.1 kv.2) d

/-! ## String helpers modelling the Python primitives used by the source -/

/-- Whitespace recognised by Python `str.strip()` (the characters occurring in
practice). -/
def isSpaceChar (c : Char) : Bool :=
  c == ' ' || c == '\t' || c == '\n' || c == '\r'

/-- Python `str.strip()` on a character list. -/
def pyStrip (cs : List Char) : List Char :=
  ((cs.dropWhile isSpaceChar).reverse.dropWhile isSpaceChar).reverse

/-- Python `str.lower()` (ASCII). -/
def strLower (s : String) : String := String.mk (s.data.map Char.toLower)

/-- Value of one hexadecimal digit character. -/
def digitVal? (c : Char) : Option Nat :=
  if '0' ≤ c ∧ c ≤ '9' then some (c.toNat - 48)
  else if 'a' ≤ c ∧ c ≤ 'f' then some (c.toNat - 87)
  else if 'A' ≤ c ∧ c ≤ 'F' then some (c.toNat - 55)
  else none

def parseDigitsGo (base : Nat) : List Char → Nat → Option Nat
  | [], acc => some acc
  | c :: cs, acc =>
    match digitVal? c with
    | some d => if d < base then parseDigitsGo base cs (acc * base + d) else none
    | none => none

/-- Digit-string value in the given base; empty digit strings are invalid. -/
def parseDigits (base : Nat) (cs : List Char) : Option Nat :=
  match cs with
  | [] => none
  | _ => parseDigitsGo base cs 0

/-- Unsigned part of Python `int(s, base=0)`: `0x`/`0b`/`0o` prefixes select the
base; a plain decimal may not have leading zeros (except a string of zeros). -/
def pyUnsigned? : List Char → Option Nat
  | '0' :: 'x' :: rest => parseDigits 16 rest
  | '0' :: 'X' :: rest => parseDigits 16 rest
  | '0' :: 'b' :: rest => parseDigits 2 rest
  | '0' :: 'B' :: rest => parseDigits 2 rest
  | '0' :: 'o' :: rest => parseDigits 8 rest
  | '0' :: 'O' :: rest => parseDigits 8 rest
  | cs =>
    match parseDigits 10 cs with
    | none => none
    | some n =>
      match cs with
      | '0' :: rest => if rest.all (fun c => c == '0') then some 0 else none
      | _ => some n

/-- Python `int(s, base=0)`; `none` models the `ValueError`. -/
def pyInt? (s : String) : Option Int :=
  match pyStrip s.data with
  | '-' :: rest =>
    match pyUnsigned? rest with
    | some n => some (-(n : Int))
    | none => none
  | '+' :: rest =>
    match pyUnsigned? rest with
    | some n => some (n : Int)
    | none => none
  | cs =>
    match pyUnsigned? cs with
    | some n => some (n : Int)
    | none => none

/-- Lowercase hexadecimal digits of `n` (Python `"%x" % n`). -/
def natToHex (n : Nat) : String := String.mk (Nat.toDigits 16 n)

/-- Python `f"{n:#x}"`. -/
def hexLit (i : Int) : String :=
  match i with
  | Int.ofNat n => "0x" ++ natToHex n
  | Int.negSucc m => "-0x" ++ natToHex (m + 1)

/-- Python `"%08x" % i`: hex, zero-padded to (total) width 8. -/
def pyHex08 (i : Int) : String :=
  match i with
  | Int.ofNat n =>
    let d := Nat.toDigits 16 n
    String.mk (List.replicate (8 - d.length) '0' ++ d)
  | Int.negSucc m =>
    let d := Nat.toDigits 16 (m + 1)
    "-" ++ String.mk (List.replicate (7 - d.length) '0' ++ d)

/-- Does `sub` occur as a contiguous substring (Python `sub in s`)? -/
def listContainsSeq (needle : List Char) : List Char → Bool
  | [] => needle.isEmpty
  | c :: rest => needle.isPrefixOf (c :: rest) || listContainsSeq needle rest

def strContainsStr (hay sub : String) : Bool := listContainsSeq sub.data hay.data

/-- Python `c in s` for a single character. -/
def strContainsChar (s : String) (c : Char) : Bool := s.data.contains c

/-! ## XML elements -/

/-- An `xml.etree.ElementTree.Element`: tag, attribute dict, child elements. -/
inductive Element : Type where
  | mk (tag : String) (attrib : List (String × String)) (children : List Element)

def Element.tag : Element → String
  | .mk t _ _ => t

def Element.attrib : Element → List (String × String)
  | .mk _ a _ => a

def Element.children : Element → List Element
  | .mk _ _ c => c

/-- Python `k in element` for an `Element` iterates over the element's child
sub-elements and compares `k` with each of them; a `str` never equals an
`Element` object, so each comparison is `False`.  (This is the membership test
the source's `_inherit_attributes` performs via `k not in to_elem`.) -/
def elementContainsString (e : Element) (_k : String) : Bool :=
  e.children.any (fun _child => false)

/-- `CmsisPackDescription._inherit_attributes`: copy to `toElem` the attributes
of `fromElem` for which the source's `k not in to_elem` test succeeds, then
`to_elem.attrib.update(inherited)`. -/
def inheritAttributes (toElem : Element) (fromElem : Option Element) : Element :=
  match fromElem with
  | none => toElem
  | some f =>
    let inherited := f.attrib.filter (fun kv => !elementContainsString toElem kv.1)
    Element.mk toElem.tag (dictUpdate toElem.attrib inherited) toElem.children

/-- Python `_get_bool_attribute`: "true"/"1" and "false"/"0" after strip and
lower-casing; anything else gives the default. -/
def getBoolAttribute (e : Element) (name : String) (default : Bool) : Bool :=
  match dget e.attrib name with
  | none => default
  | some v =>
    let w := String.mk ((pyStrip v.data).map Char.toLower)
    if w = "true" ∨ w = "1" then true
    else if w = "false" ∨ w = "0" then false
    else default

/-! ## The generic Identity-Merge engine (`_extract_items`)

Each category filter is a function from the accumulated dict (or richer state)
and one element to `Except σ σ`: `Except.error` is a raised
`KeyError`/`ValueError`, carrying the state at the moment of the raise (the
Python dict is mutated in place, so deletions made before a raise persist). -/

/-- One iteration of the `_extract_items` loop: call the filter and catch
`KeyError`/`ValueError`, continuing with whatever state the filter left. -/
def runFilter {σ : Type} (f : σ → Element → Except σ σ) (st : σ) (e : Element) : σ :=
  match f st e with
  | .ok st2 => st2
  | .error st2 => st2

/-- `CmsisPackDescription._extract_items`: fold the filter over the saved
elements of every level of the state stack, outer to inner. -/
def extractItems {σ : Type} (f : σ → Element → Except σ σ) (init : σ)
    (stack : List (List Element)) : σ :=
  (stack.flatten).foldl (runFilter f) init

/-! ## Category policy: processors (`_extract_processors`) -/

/-- The processor filter: key is the optional `Pname`; on collision the new
element goes through `_inherit_attributes` against the old one. -/
def procFilter (m : List (Option String × Element)) (e : Element) :
    Except (List (Option String × Element)) (List (Option String × Element)) :=
  let pname := dget e.attrib "Pname"
  Except.ok (dset m pname (inheritAttributes e (dget m pname)))

/-- `_extract_processors` over a stack of per-level processor element lists. -/
def extractProcessors (stack : List (List Element)) : List Element :=
  dvalues (extractItems procFilter [] stack)

/-! ## Category policy: debug entries (`_extract_debugs`) -/

/-- `(dget attrib "Punit").getD "0"` models `elem.attrib.get('Punit', 0)`
followed by `str(unit)`. -/
def debugFilter (m : List (String × Element)) (e : Element) :
    Except (List (String × Element)) (List (String × Element)) :=
  match dget e.attrib "Pname" with
  | some p =>
    let name := p ++ ((dget e.attrib "Punit").getD "0")
    let m1 := if dmem m "*" then [] else m
    Except.ok (dset m1 name e)
  | none =>
    -- no Pname: applies to all processors; clear the map and key by "*"
    Except.ok [("*", e)]

/-- Folding the debug filter over a flat element sequence (the state underlying
`_extract_debugs`). -/
def foldDebugs (es : List Element) : List (String × Element) :=
  es.foldl (runFilter debugFilter) []

/-- `_extract_debugs` over a stack of per-level debug element lists. -/
def extractDebugs (stack : List (List Element)) : List Element :=
  dvalues (extractItems debugFilter [] stack)

/-- Does a debug element carry a `Pname` attribute (processor-specific scope)? -/
def hasPname (e : Element) : Bool := (dget e.attrib "Pname").isSome

/-! ## Category policy: memories (`_extract_memories`) -/

/-- `get_start_and_size`: both `start` and `size` parsed with `int(., base=0)`;
`none` models the raised `KeyError`/`ValueError`. -/
def getStartSize (e : Element) : Option (Int × Int) :=
  match dget e.attrib "start" with
  | none => none
  | some sstr =>
    match pyInt? sstr with
    | none => none
    | some s =>
      match dget e.attrib "size" with
      | none => none
      | some zstr =>
        match pyInt? zstr with
        | none => none
        | some z => some (s, z)

/-- The merge key: `name`, else `id`, else `"%08x:%08x" % (start, size)`. -/
def memName (e : Element) (s z : Int) : String :=
  match dget e.attrib "name" with
  | some n => n
  | none =>
    match dget e.attrib "id" with
    | some i => i
    | none => pyHex08 s ++ ":" ++ pyHex08 z

/-- The `(name, pname)` identity key of a memory element. -/
def memInfo (e : Element) (s z : Int) : String × Option String :=
  (memName e s z, dget e.attrib "Pname")

/-- State of the memory merge: the keyed dict and the per-pack
`_warned_overlapping_memory_regions` flag (held on the description object, so
it persists across devices of one pack). -/
structure MemMergeState where
  map : List ((String × Option String) × Element)
  warned : Bool

/-- Overlap test of the source: with `end = start + size - 1` and
`prev_end = prev_start + prev_size - 1`, overlap iff
`prev_start <= start < prev_end or prev_start <= end < prev_end`. -/
def overlapB (prev : Element) (s z : Int) : Bool :=
  match getStartSize prev with
  | none => false
  | some (ps, pz) =>
    decide ((ps ≤ s ∧ s < ps + pz - 1) ∨ (ps ≤ s + z - 1 ∧ s + z - 1 < ps + pz - 1))

/-- The eviction loop of the memory filter over the snapshot `list(map.keys())`.
Looking up a previous element whose `start`/`size` no longer parse re-raises
(`.error`, keeping the deletions already made).  The overlap warning evaluates
`_get_part_number_from_element` on the innermost stack element for its message:
`partOk` says whether that evaluation succeeds; when it does not, the warning
itself raises before the flag is set and before `del map[k]`. -/
def evictLoop (partOk : Bool) (s z : Int) (pn : Option String) :
    MemMergeState → List (String × Option String) → Except MemMergeState MemMergeState
  | st, [] => Except.ok st
  | st, k :: ks =>
    match dget st.map k with
    | none =>
      -- unreachable: the keys come from a snapshot of the dict and only other
      -- keys are deleted while iterating
      evictLoop partOk s z pn st ks
    | some prev =>
      match getStartSize prev with
      | none => Except.error st
      | some (ps, pz) =>
        if (ps ≤ s ∧ s < ps + pz - 1) ∨ (ps ≤ s + z - 1 ∧ s + z - 1 < ps + pz - 1) then
          if pn = k.2 ∧ st.warned = false then
            if partOk then
              evictLoop partOk s z pn { map := ddel st.map k, warned := true } ks
            else Except.error st
          else
            evictLoop partOk s z pn { st with map := ddel st.map k } ks
        else
          evictLoop partOk s z pn st ks

/-- The memory filter: parse start/size, compute the identity key, delete an
exact-key duplicate, run the eviction loop, then insert the new element. -/
def memFilter (partOk : Bool) (st : MemMergeState) (e : Element) :
    Except MemMergeState MemMergeState :=
  match getStartSize e with
  | none => Except.error st
  | some (s, z) =>
    let info := memInfo e s z
    let st1 := if dmem st.map info then { st with map := ddel st.map info } else st
    match evictLoop partOk s z info.2 st1 (dkeys st1.map) with
    | .error st2 => Except.error st2
    | .ok st2 => Except.ok { st2 with map := dset st2.map info e }

/-- Events of one pack-parse session as they concern the memory merge: a
`reset` starts the fresh dict of one `_extract_memories` call (the warned flag
persists), an `elem` step processes one memory element. -/
inductive MemEvent : Type where
  | reset
  | elem (partOk : Bool) (e : Element)

/-- Run a pack-parse session, counting emitted overlap warnings (a warning is
emitted exactly when the step flips the warned flag from false to true). -/
def memRun : MemMergeState × Nat → List MemEvent → MemMergeState × Nat
  | stc, [] => stc
  | (st, c), MemEvent.reset :: evs => memRun ({ st with map := [] }, c) evs
  | (st, c), MemEvent.elem partOk e :: evs =>
    let st2 := runFilter (memFilter partOk) st e
    memRun (st2, c + (if st.warned = false ∧ st2.warned = true then 1 else 0)) evs

/-- `_extract_memories` over a stack of per-level memory element lists,
threading the per-pack warned flag. -/
def extractMemories (partOk warned : Bool) (stack : List (List Element)) :
    List Element × Bool :=
  let st := extractItems (memFilter partOk) { map := [], warned := warned } stack
  (dvalues st.map, st.warned)

/-! ## Category policy: algorithms (`_extract_algos`) -/

/-- The algorithm filter: skip non-Keil styles, key by the `(start, size)`
range, later replaces earlier. -/
def algoFilter (m : List ((Int × Int) × Element)) (e : Element) :
    Except (List ((Int × Int) × Element)) (List ((Int × Int) × Element)) :=
  let skip :=
    match dget e.attrib "style" with
    | some sv => !(strLower sv == "keil")
    | none => false
  if skip then Except.ok m
  else
    match getStartSize e with
    | none => Except.error m
    | some (s, z) => Except.ok (dset m (s, z) e)

def extractAlgos (stack : List (List Element)) : List Element :=
  dvalues (extractItems algoFilter [] stack)

/-! ## Category policies: debug ports and access ports -/

/-- `map[elem.attrib['__dp']] = elem` (the raw attribute string is the key). -/
def debugportFilter (m : List (String × Element)) (e : Element) :
    Except (List (String × Element)) (List (String × Element)) :=
  match dget e.attrib "__dp" with
  | none => Except.error m
  | some k => Except.ok (dset m k e)

def extractDebugports (stack : List (List Element)) : List Element :=
  dvalues (extractItems debugportFilter [] stack)

/-- `map[elem.attrib['__apid']] = elem`. -/
def accessportFilter (m : List (String × Element)) (e : Element) :
    Except (List (String × Element)) (List (String × Element)) :=
  match dget e.attrib "__apid" with
  | none => Except.error m
  | some k => Except.ok (dset m k e)

def extractAccessports (stack : List (List Element)) : List Element :=
  dvalues (extractItems accessportFilter [] stack)

/-! ## Memory regions and flash synthesis (`CmsisPackDevice`) -/

/-- Memory region kinds (`MemoryType`). -/
inductive MemoryType : Type where
  | rom
  | ram
  | device
  | flash
  deriving DecidableEq

/-- Modelled from the spec: a RAM range handed to the Flash Algorithm Decoder
(`RamRegion(start=..., length=...)` of the external `memory_map` module). -/
structure RamRange where
  start : Int
  length : Int
  deriving DecidableEq

/-- Modelled from the spec: MemoryRegionSpec / FlashRegion — name, inclusive
address range `[start, endAddr]`, access rights, kind, default/boot/testable
flags, optional alias; flash regions additionally carry sector size, page
size, erased-byte value and the algorithm image (modelled as the pair of
inputs the external decoder's image constructor receives: final page size and
chosen RAM range).  The `memory_map` module itself is not part of the
source under verification. -/
structure Region where
  type : MemoryType
  name : String
  access : String
  start : Int
  endAddr : Int
  isDefault : Bool
  isBootMemory : Bool
  isTestable : Bool
  alias? : Option String
  sectorSize : Int
  pageSize : Int
  erasedByteValue : Int
  algo? : Option (Int × RamRange)
  deriving DecidableEq

/-- `region.length = end - start + 1` (inclusive range). -/
def Region.length (r : Region) : Int := r.endAddr - r.start + 1

/-- Modelled from the spec: the Flash Algorithm Decoder (`PackFlashAlgo`,
external to the source under verification) exposes a page size, an ordered
sector table of `(offset, sector-size)` pairs, and the erased-byte value. -/
structure PackFlashAlgo where
  pageSize : Int
  sectorSizes : List (Int × Int)
  valueEmpty : Int
  deriving DecidableEq

/-- State threaded through `_build_memory_regions`. -/
structure MemState where
  regions : List Region
  sawStartup : Bool
  defaultRam : Option Region
  deriving DecidableEq

/-- Result of the name/access/type resolution at the top of the
`_build_memory_regions` loop body. -/
inductive MemHead : Type where
  | raised
  | skipped
  | ok (name access : String) (type : MemoryType)

/-- The `name`/`access`/`id` branch: a `name` without `access` raises a
`KeyError`; with neither `name` nor `id` the element is skipped (`continue`). -/
def memHead (e : Element) : MemHead :=
  match dget e.attrib "name" with
  | some name =>
    match dget e.attrib "access" with
    | none => MemHead.raised
    | some access =>
      if strContainsChar access 'p' then MemHead.ok name access MemoryType.device
      else if strContainsChar access 'w' then MemHead.ok name access MemoryType.ram
      else MemHead.ok name access MemoryType.rom
  | none =>
    match dget e.attrib "id" with
    | some id =>
      if strContainsStr id "RAM" then MemHead.ok id "rwx" MemoryType.ram
      else MemHead.ok id "rx" MemoryType.rom
    | none => MemHead.skipped

/-- One iteration of `_build_memory_regions`: parse errors are caught and the
element is ignored. -/
def buildMemoryStep (st : MemState) (e : Element) : MemState :=
  match memHead e with
  | MemHead.raised => st
  | MemHead.skipped => st
  | MemHead.ok name access ty =>
    match getStartSize e with
    | none => st
    | some (start, size) =>
      let isDefault := getBoolAttribute e "default" false
      let isStartup := getBoolAttribute e "startup" false
      let saw := st.sawStartup || isStartup
      let region : Region :=
        { type := ty, name := name, access := access, start := start,
          endAddr := start + size - 1, isDefault := isDefault,
          isBootMemory := isStartup, isTestable := isDefault,
          alias? := dget e.attrib "alias", sectorSize := 0, pageSize := 0,
          erasedByteValue := 0, algo? := none }
      let dram :=
        match st.defaultRam with
        | some r => some r
        | none => if ty = MemoryType.ram ∧ isDefault then some region else none
      { regions := st.regions ++ [region], sawStartup := saw, defaultRam := dram }

/-- `CmsisPackDevice._build_memory_regions`. -/
def buildMemoryRegions (elems : List Element) : MemState :=
  elems.foldl buildMemoryStep { regions := [], sawStartup := false, defaultRam := none }

/-- `CmsisPackDevice._get_containing_region`. -/
def getContainingRegion (regions : List Region) (addr : Int) : Option Region :=
  regions.find? (fun r => decide (r.start ≤ addr ∧ addr ≤ r.endAddr))

/-- `CmsisPackDevice._find_matching_algo`: first algorithm whose
`[start, start+size-1]` range contains both ends of the region.  A missing
`start`/`size` attribute raises a `KeyError` that the caller reads as
"no matching algo" (`.ok none`); an unparseable value raises a `ValueError`
that propagates (`.error`). -/
def findMatchingAlgo (algos : List Element) (region : Region) :
    Except String (Option Element) :=
  match algos with
  | [] => Except.ok none
  | a :: rest =>
    match dget a.attrib "start", dget a.attrib "size" with
    | some sstr, some zstr =>
      match pyInt? sstr, pyInt? zstr with
      | some algoStart, some algoSize =>
        let algoEnd := algoStart + algoSize - 1
        if (algoStart ≤ region.start ∧ region.start ≤ algoEnd) ∧
            (algoStart ≤ region.endAddr ∧ region.endAddr ≤ algoEnd) then
          Except.ok (some a)
        else findMatchingAlgo rest region
      | _, _ => Except.error "ValueError: invalid start or size"
    | _, _ => Except.ok none

/-- RAM selection of `_build_flash_regions`: explicit `RAMstart` (with size
from `RAMsize`, else the rest of the containing region, else 128 KiB), else
the device's default RAM.  Only a `KeyError` (missing `RAMstart`) selects the
default; an unparseable value propagates. -/
def selectAlgoRam (regions : List Region) (defaultRam : Region) (a : Element) :
    Except String RamRange :=
  match dget a.attrib "RAMstart" with
  | none => Except.ok { start := defaultRam.start, length := defaultRam.length }
  | some rstr =>
    match pyInt? rstr with
    | none => Except.error "ValueError: invalid RAMstart"
    | some ramStart =>
      match dget a.attrib "RAMsize" with
      | some zstr =>
        match pyInt? zstr with
        | none => Except.error "ValueError: invalid RAMsize"
        | some ramSize => Except.ok { start := ramStart, length := ramSize }
      | none =>
        match getContainingRegion regions ramStart with
        | some cr =>
          Except.ok { start := ramStart, length := cr.length - (ramStart - cr.start) }
        | none => Except.ok { start := ramStart, length := 128 * 1024 }

/-- `_split_flash_region_by_sector_size`, one sector-table entry at a time:
compute the sub-range bounds (the last one extends to the region's end), skip
a sub-range whose end precedes its start, clamp the page size to the sector
size, force the boot flag onto the first flash region synthesized while the
device-wide startup flag is still unset, and disambiguate names when the
table has more than one entry. -/
def splitFlashGo (region : Region) (pageSize : Int) (img : Int × RamRange)
    (pa : PackFlashAlgo) (multi : Bool) :
    List (Int × Int) → Bool → List Region × Bool
  | [], saw => ([], saw)
  | (off, ss) :: rest, saw =>
    let s := region.start + off
    let e :=
      match rest with
      | [] => region.endAddr
      | (off2, _) :: _ => region.start + off2 - 1
    if e < s then splitFlashGo region pageSize img pa multi rest saw
    else
      let rps := if pageSize > ss then ss else pageSize
      let isBoot := if saw = false then true else region.isBootMemory
      let saw2 := if saw = false then true else saw
      let rname := if multi then region.name ++ "_" ++ hexLit ss else region.name
      let fr : Region :=
        { type := MemoryType.flash, name := rname, access := region.access,
          start := s, endAddr := e, isDefault := region.isDefault,
          isBootMemory := isBoot, isTestable := region.isTestable,
          alias? := region.alias?, sectorSize := ss, pageSize := rps,
          erasedByteValue := pa.valueEmpty, algo? := some img }
      let r2 := splitFlashGo region pageSize img pa multi rest saw2
      (fr :: r2.1, r2.2)

/-- `CmsisPackDevice._split_flash_region_by_sector_size` (the generator is
consumed eagerly by `list(...)` at its only call site). -/
def splitFlashRegionBySectorSize (region : Region) (pageSize : Int)
    (img : Int × RamRange) (pa : PackFlashAlgo) (saw : Bool) : List Region × Bool :=
  splitFlashGo region pageSize img pa (decide (pa.sectorSizes.length > 1))
    pa.sectorSizes saw

/-- Accumulator of the `_build_flash_regions` loop. -/
structure FlashBuildState where
  toDelete : List Region
  toAdd : List Region
  sawStartup : Bool

/-- Python `list.remove`: drop the first equal occurrence. -/
def removeFirst {α : Type} [DecidableEq α] : List α → α → List α
  | [], _ => []
  | x :: xs, a => if x = a then xs else x :: removeFirst xs a

/-- One iteration of the `_build_flash_regions` loop over the regions list. -/
def flashRegionStep (allRegions : List Region) (defaultRam : Region)
    (algos : List Element) (loadAlgo : String → Option PackFlashAlgo)
    (st : FlashBuildState) (region : Region) : Except String FlashBuildState :=
  if region.type ≠ MemoryType.rom then Except.ok st
  else
    match findMatchingAlgo algos region with
    | .error msg => Except.error msg
    | .ok none => Except.ok st
    | .ok (some algoElem) =>
      match dget algoElem.attrib "name" with
      | none => Except.error "KeyError: name"
      | some fname =>
        match loadAlgo fname with
        | none => Except.ok st
        | some pa =>
          let st1 : FlashBuildState :=
            { st with toDelete := st.toDelete ++ [region] }
          match
            (if pa.pageSize ≤ 32 then
              match (pa.sectorSizes.map Prod.snd).min? with
              | some m => Except.ok m
              | none => Except.error "ValueError: min of empty sequence"
            else Except.ok pa.pageSize) with
          | .error msg => Except.error msg
          | .ok pageSize =>
            match selectAlgoRam allRegions defaultRam algoElem with
            | .error msg => Except.error msg
            | .ok ram =>
              let split :=
                splitFlashRegionBySectorSize region pageSize (pageSize, ram) pa
                  st1.sawStartup
              Except.ok { toDelete := st1.toDelete, toAdd := st1.toAdd ++ split.1,
                          sawStartup := split.2 }

/-- `CmsisPackDevice._build_flash_regions`: without a default RAM the whole
pass is abandoned up front; otherwise every ROM region with a matching,
loadable algorithm is replaced by its split flash regions. -/
def buildFlashRegions (regions : List Region) (defaultRam : Option Region)
    (algos : List Element) (loadAlgo : String → Option PackFlashAlgo)
    (saw : Bool) : Except String (List Region × Bool) :=
  match defaultRam with
  | none => Except.ok (regions, saw)
  | some dram =>
    match regions.foldlM (flashRegionStep regions dram algos loadAlgo)
        { toDelete := [], toAdd := [], sawStartup := saw } with
    | .error msg => Except.error msg
    | .ok st =>
      Except.ok (st.toDelete.foldl removeFirst regions ++ st.toAdd, st.sawStartup)

/-- The `memory_map` pipeline: `_build_memory_regions` then
`_build_flash_regions` over a device's resolved memory and algorithm
elements. -/
def buildDeviceRegions (memElems algoElems : List Element)
    (loadAlgo : String → Option PackFlashAlgo) : Except String (List Region × Bool) :=
  let st := buildMemoryRegions memElems
  buildFlashRegions st.regions st.defaultRam algoElems loadAlgo st.sawStartup

/-! ## Debug topology (`_build_aps_map` and friends) -/

/-- Modelled from the spec: APAddress is a tagged variant — index-based
(v1: an index plus a debug-port index) or absolute-address-based (v2: an
address plus a debug-port index).  The `coresight.ap` classes are external to
the source under verification; an omitted debug-port argument defaults
to 0. -/
inductive APAddress : Type where
  | v1 (index : Int) (dp : Int)
  | v2 (address : Int) (dp : Int)
  deriving DecidableEq

/-- The `ProcessorInfo` dataclass with its field defaults. -/
structure ProcessorInfo where
  name : String
  unit : Int
  totalUnits : Int
  apAddress : APAddress
  address : Int
  svdPath : Option String
  defaultResetSequence : String
  deriving DecidableEq

/-- `ProcessorInfo(name=..., total_units=...)` with the remaining dataclass
defaults (`unit = -1`, `ap_address = APv1Address(-1)`, `address = 0`,
`svd_path = None`, `default_reset_sequence = "ResetSystem"`). -/
def mkProcessorInfo (name : String) (totalUnits : Int) : ProcessorInfo :=
  { name := name, unit := -1, totalUnits := totalUnits,
    apAddress := APAddress.v1 (-1) 0, address := 0, svdPath := none,
    defaultResetSequence := "ResetSystem" }

/-- `CmsisPackDevice._get_int_attribute`: missing attribute gives the default
or raises `MalformedCmsisPackError`; an unparseable value always raises. -/
def getIntAttribute (e : Element) (name : String) (default : Option Int) :
    Except String Int :=
  match dget e.attrib name with
  | none =>
    match default with
    | none => Except.error "MalformedCmsisPackError: missing attribute"
    | some d => Except.ok d
  | some v =>
    match pyInt? v with
    | none => Except.error "MalformedCmsisPackError: invalid attribute"
    | some i => Except.ok i

/-- `CmsisPackDevice._build_valid_dps`: collect each parseable `__dp`, warn and
skip the rest; default to `[0]` when none resolve. -/
def buildValidDps (debugports : List Element) : List Int :=
  let l := debugports.foldl
    (fun acc e =>
      match getIntAttribute e "__dp" none with
      | .ok v => acc ++ [v]
      | .error _ => acc) []
  if l.isEmpty then [0] else l

/-- `CmsisPackDevice._handle_accessports`: build the `__apid` → AP address
map; malformed elements are skipped individually (an out-of-range `__dp` is
only warned about).  A tag other than `accessportV1`/`accessportV2` cannot
occur for elements collected by the element classifier. -/
def handleAccessports (validDps : List Int) (accessports : List Element) :
    List (Int × APAddress) :=
  accessports.foldl
    (fun m e =>
      match getIntAttribute e "__dp" (some 0) with
      | .error _ => m
      | .ok apDp =>
        -- an out-of-range __dp is validated against the valid-DP list but only
        -- warned about; processing continues either way
        let _dpKnown := validDps.contains apDp
        match
          (if e.tag = "accessportV1" then
            match getIntAttribute e "index" none with
            | .ok idx => Except.ok (APAddress.v1 idx apDp)
            | .error msg => Except.error msg
          else if e.tag = "accessportV2" then
            match getIntAttribute e "address" none with
            | .ok ad => Except.ok (APAddress.v2 ad apDp)
            | .error msg => Except.error msg
          else Except.error "InternalError: unexpected element") with
        | .error _ => m
        | .ok apAddr =>
          match getIntAttribute e "__apid" none with
          | .error _ => m
          | .ok apid => dset m apid apAddr) []

/-- One iteration of `_handle_processors`: name from `Pname` else `Dcore`
(else raise and skip), unit count from `Punits` (default 1), duplicate names
skipped. -/
def procElemStep (m : List (String × ProcessorInfo)) (e : Element) :
    List (String × ProcessorInfo) :=
  match
    (match dget e.attrib "Pname" with
    | some p => some p
    | none => dget e.attrib "Dcore") with
  | none => m
  | some pname =>
    match getIntAttribute e "Punits" (some 1) with
    | .error _ => m
    | .ok punits =>
      if dmem m pname then m
      else dset m pname (mkProcessorInfo pname punits)

/-- `CmsisPackDevice._handle_processors`, with a placeholder "unknown"
processor if no element resolves. -/
def handleProcessors (processors : List Element) : List (String × ProcessorInfo) :=
  let m := processors.foldl procElemStep []
  if m.isEmpty then [("unknown", mkProcessorInfo "unknown" 1)] else m

/-- One iteration of the `<debug>` loop of `_build_aps_map`: resolve the
target processor, resolve the AP address (`__apid` lookup, else `__ap` with
optional `__dp`, else the default `APv1Address(0)`), then assign unit, AP
address, debug-base address, SVD path and default reset sequence onto the
target.  A raise skips the remainder of that entry only; updates already
made are kept. -/
def debugStep (validDps : List Int) (apids : List (Int × APAddress))
    (m : List (String × ProcessorInfo)) (e : Element) :
    List (String × ProcessorInfo) :=
  let pname :=
    match dget e.attrib "Pname" with
    | some p => p
    | none =>
      match dkeys m with
      | [] => ""
      | p :: _ => p
  if dmem m pname = false then m
  else
    match
      (match dget e.attrib "__apid" with
      | some _ =>
        match getIntAttribute e "__apid" none with
        | .error msg => Except.error msg
        | .ok apid =>
          match dget apids apid with
          | none => Except.error "MalformedCmsisPackError: undefined apid"
          | some ad => Except.ok ad
      | none =>
        match dget e.attrib "__ap" with
        | some _ =>
          match getIntAttribute e "__dp" (some 0) with
          | .error msg => Except.error msg
          | .ok dpIndex =>
            if validDps.contains dpIndex = false then
              Except.error "MalformedCmsisPackError: invalid dp"
            else
              match getIntAttribute e "__ap" none with
              | .error msg => Except.error msg
              | .ok apIndex => Except.ok (APAddress.v1 apIndex dpIndex)
        | none => Except.ok (APAddress.v1 0 0)) with
    | .error _ => m
    | .ok apAddr =>
      match dget m pname with
      | none => m
      | some proc0 =>
        match getIntAttribute e "Punit" (some 0) with
        | .error _ => m
        | .ok punit =>
          let proc1 := { proc0 with unit := punit, apAddress := apAddr }
          let m1 := dset m pname proc1
          match getIntAttribute e "address" (some 0) with
          | .error _ => m1
          | .ok ad =>
            let rseq :=
              match dget e.attrib "defaultResetSequence" with
              | some rs => rs
              | none => proc1.defaultResetSequence
            let svd := dget e.attrib "svd"
            let proc2 :=
              { proc1 with address := ad, svdPath := svd,
                           defaultResetSequence := rseq }
            dset m1 pname proc2

/-- Result of `_build_aps_map`. -/
structure ApsResult where
  validDps : List Int
  apids : List (Int × APAddress)
  procs : List (String × ProcessorInfo)

/-- `CmsisPackDevice._build_aps_map`. -/
def buildApsMap (debugports accessports processors debugs : List Element) :
    ApsResult :=
  let vd := buildValidDps debugports
  let ap := handleAccessports vd accessports
  let pm := handleProcessors processors
  { validDps := vd, apids := ap, procs := debugs.foldl (debugStep vd ap) pm }

/-! ## The hierarchy walker (`_parse_devices`) -/

/-- `_DeviceInfo`: the per-level element collections gathered at one node. -/
structure DevInfo where
  element : Element
  processors : List Element
  memories : List Element
  algos : List Element
  debugs : List Element
  debugports : List Element
  accessports : List Element

/-- Classify one child element into its category (or into the recursable
children). -/
def classifyStep (acc : DevInfo × List Element) (e : Element) :
    DevInfo × List Element :=
  let st := acc.1
  let children := acc.2
  if e.tag = "memory" then ({ st with memories := st.memories ++ [e] }, children)
  else if e.tag = "processor" then
    ({ st with processors := st.processors ++ [e] }, children)
  else if e.tag = "algorithm" then ({ st with algos := st.algos ++ [e] }, children)
  else if e.tag = "debug" then ({ st with debugs := st.debugs ++ [e] }, children)
  else if e.tag = "debugport" then
    ({ st with debugports := st.debugports ++ [e] }, children)
  else if e.tag = "accessportV1" ∨ e.tag = "accessportV2" then
    ({ st with accessports := st.accessports ++ [e] }, children)
  else if e.tag = "subFamily" ∨ e.tag = "device" ∨ e.tag = "variant" then
    (st, children ++ [e])
  else acc

/-- Gather the categories and recursable children of one node. -/
def classifyElem (e : Element) : DevInfo × List Element :=
  e.children.foldl classifyStep
    ({ element := e, processors := [], memories := [], algos := [], debugs := [],
       debugports := [], accessports := [] }, [])

/-- `_get_part_number_from_element`: `Dname`, else `Dvariant` for variants
(raising `KeyError` when missing), else a `ValueError`. -/
def getPartNumber (e : Element) : Except String String :=
  match dget e.attrib "Dname" with
  | some n => Except.ok n
  | none =>
    if e.tag = "variant" then
      match dget e.attrib "Dvariant" with
      | some v => Except.ok v
      | none => Except.error "KeyError: Dvariant"
    else Except.error "ValueError: element is neither device nor variant"

/-- `_extract_families`: `family` levels contribute `Dvendor` and `Dfamily`,
`subFamily` levels contribute `DsubFamily`; a missing attribute raises a
`KeyError` that nothing catches. -/
def extractFamilies (stack : List DevInfo) : Except String (List String) :=
  stack.foldlM
    (fun fams st =>
      if st.element.tag = "family" then
        match dget st.element.attrib "Dvendor", dget st.element.attrib "Dfamily" with
        | some v, some f => Except.ok (fams ++ [v, f])
        | _, _ => Except.error "KeyError: Dvendor or Dfamily"
      else if st.element.tag = "subFamily" then
        match dget st.element.attrib "DsubFamily" with
        | some sf => Except.ok (fams ++ [sf])
        | none => Except.error "KeyError: DsubFamily"
      else Except.ok fams) []

/-- A resolved device descriptor (the data `CmsisPackDevice` is built from). -/
structure Device where
  partNumber : String
  families : List String
  processors : List Element
  memories : List Element
  algos : List Element
  debugs : List Element
  debugports : List Element
  accessports : List Element

def exceptIsOk {ε α : Type} : Except ε α → Bool
  | .ok _ => true
  | .error _ => false

/-- Helper: project one category of the state stack. -/
def stackOf (stack : List DevInfo) (proj : DevInfo → List Element) :
    List (List Element) :=
  stack.map proj

mutual

/-- `CmsisPackDescription._parse_devices`.  The first argument is recursion
fuel (the Python recursion is bounded by the finite element tree); the `Bool`
is the pack-level `_warned_overlapping_memory_regions` flag.  An uncaught
exception (`Except.error`) aborts the whole walk, dropping all devices. -/
def parseDevices : Nat → Bool → List DevInfo → Element →
    Except String (List Device × Bool)
  | 0, _, _, _ => Except.error "fuel exhausted"
  | Nat.succ fuel, warned, stack, e =>
    let cls := classifyElem e
    let stack2 := stack ++ [cls.1]
    match
      (if e.tag = "device" ∨ e.tag = "variant" then
        match extractFamilies stack2 with
        | .error msg => Except.error msg
        | .ok fams =>
          let partOk := exceptIsOk (getPartNumber e)
          let mems := extractMemories partOk warned
            (stackOf stack2 DevInfo.memories)
          match getPartNumber e with
          | .error msg => Except.error msg
          | .ok part =>
            Except.ok
              ([{ partNumber := part, families := fams,
                  processors := extractProcessors
                    (stackOf stack2 DevInfo.processors),
                  memories := mems.1,
                  algos := extractAlgos (stackOf stack2 DevInfo.algos),
                  debugs := extractDebugs (stackOf stack2 DevInfo.debugs),
                  debugports := extractDebugports
                    (stackOf stack2 DevInfo.debugports),
                  accessports := extractAccessports
                    (stackOf stack2 DevInfo.accessports) }], mems.2)
      else Except.ok ([], warned)) with
    | .error msg => Except.error msg
    | .ok devsHere =>
      match parseDevicesList fuel devsHere.2 stack2 cls.2 with
      | .error msg => Except.error msg
      | .ok rest => Except.ok (devsHere.1 ++ rest.1, rest.2)

/-- Recursion over the recursable children of one node. -/
def parseDevicesList : Nat → Bool → List DevInfo → List Element →
    Except String (List Device × Bool)
  | 0, _, _, _ => Except.error "fuel exhausted"
  | Nat.succ _, warned, _, [] => Except.ok ([], warned)
  | Nat.succ fuel, warned, stack, c :: cs =>
    match parseDevices fuel warned stack c with
    | .error msg => Except.error msg
    | .ok ds =>
      match parseDevicesList fuel ds.2 stack cs with
      | .error msg => Except.error msg
      | .ok rest => Except.ok (ds.1 ++ rest.1, rest.2)

end

/-- Does the algorithm's `[start, start+size-1]` range fully contain the
region's `[start, end]`?  (The containment test of `_find_matching_algo`.) -/
def algoContains (a : Element) (r : Region) : Bool :=
  match getStartSize a with
  | none => false
  | some (s, z) =>
    decide ((s ≤ r.start ∧ r.start ≤ s + z - 1) ∧ (s ≤ r.endAddr ∧ r.endAddr ≤ s + z - 1))

/-- Spec-side description of the flash split (following the claim's words, for
comparison with `splitFlashGo`): sub-range `j` of a region starting at `base`
spans `[base + offset_j, base + offset_(j+1) - 1]`, the last sub-range extends
to the region's end `endA`, and a sub-range whose end precedes its start is
dropped; each kept sub-range is reported as `(start, end, sector-size)`. -/
def spansSpec (base endA : Int) : List (Int × Int) → List (Int × Int × Int)
  | [] => []
  | (off, ss) :: rest =>
    let s := base + off
    let e :=
      match rest with
      | [] => endA
      | (off2, _) :: _ => base + off2 - 1
    (if e < s then [] else [(s, e, ss)]) ++ spansSpec base endA rest

/-- Overlap test lifted to the result of a map lookup. -/
def overlapOf (o : Option Element) (s z : Int) : Bool :=
  match o with
  | some v => overlapB v s z
  | none => false

/-- Number of regions carrying the boot-memory flag. -/
def countBoot (rs : List Region) : Nat :=
  (rs.filter (fun r => r.isBootMemory)).length

/-! ## Concrete elements used by the examples in the claims -/

def procOuter : Element := Element.mk "processor" [("Pname", "core"), ("Dfpu", "1")] []

def procInner : Element := Element.mk "processor" [("Pname", "core"), ("Dfpu", "0")] []

def dbgNamedA : Element := Element.mk "debug" [("Pname", "A")] []

def dbgGlobal : Element := Element.mk "debug" [("__ap", "1")] []

def dbgNamedB : Element := Element.mk "debug" [("Pname", "B")] []

/-- A memory element `[0x0, 0xFFF]`. -/
def memLow : Element :=
  Element.mk "memory" [("name", "M1"), ("start", "0x0"), ("size", "0x1000")] []

/-- A memory element `[0x800, 0x17FF]` overlapping `memLow`. -/
def memHigh : Element :=
  Element.mk "memory" [("name", "M2"), ("start", "0x800"), ("size", "0x1000")] []

/-- A plain ROM region `[0x0, 0xFFF]`. -/
def romRegion0 : Region :=
  { type := MemoryType.rom, name := "IROM1", access := "rx", start := 0,
    endAddr := 0xFFF, isDefault := true, isBootMemory := false,
    isTestable := true, alias? := none, sectorSize := 0, pageSize := 0,
    erasedByteValue := 0, algo? := none }

/-- An algorithm element covering `[0x0, 0xFFF]` with an explicit RAM range. -/
def algoExplicitRam : Element :=
  Element.mk "algorithm"
    [("name", "a.flm"), ("start", "0x0"), ("size", "0x1000"),
     ("RAMstart", "0x20000000"), ("RAMsize", "0x800")] []

/-- A decoded flash algorithm with a single 1 KiB sector range. -/
def paDemo : PackFlashAlgo :=
  { pageSize := 256, sectorSizes := [(0, 0x400)], valueEmpty := 255 }

/-- A ROM region `[0x0, 0x1FFFF]` (the flash-split example of the claims). -/
def bigRom : Region :=
  { type := MemoryType.rom, name := "IROM1", access := "rx", start := 0,
    endAddr := 0x1FFFF, isDefault := true, isBootMemory := false,
    isTestable := true, alias? := none, sectorSize := 0, pageSize := 0,
    erasedByteValue := 0, algo? := none }

/-- The two-entry sector table `[(0, 0x1000), (0x10000, 0x2000)]`. -/
def paSplit : PackFlashAlgo :=
  { pageSize := 1024, sectorSizes := [(0, 0x1000), (0x10000, 0x2000)],
    valueEmpty := 255 }

/-- An uninteresting RAM range for instantiating algorithm images. -/
def ramZero : RamRange := { start := 0, length := 0 }

/-- A default RAM memory element explicitly marked startup. -/
def ramStartup1 : Element :=
  Element.mk "memory"
    [("name", "IRAM1"), ("access", "rw"), ("start", "0x20000000"),
     ("size", "0x1000"), ("default", "1"), ("startup", "1")] []

/-- A second RAM memory element also explicitly marked startup. -/
def ramStartup2 : Element :=
  Element.mk "memory"
    [("name", "IRAM2"), ("access", "rw"), ("start", "0x20001000"),
     ("size", "0x1000"), ("startup", "1")] []

/-- A processor element with only a `Dcore`. -/
def procCM4 : Element := Element.mk "processor" [("Dcore", "CM4")] []

/-- A debug element targeting `CM4` with neither `__apid` nor `__ap`. -/
def dbgDefaultCM4 : Element := Element.mk "debug" [("Pname", "CM4")] []

/-- A `family` element containing a malformed `device` (no `Dname`) followed by
a well-formed sibling `device`. -/
def famBadThenGood : Element :=
  Element.mk "family" [("Dvendor", "V:1"), ("Dfamily", "F")]
    [Element.mk "device" [] [], Element.mk "device" [("Dname", "GOOD")] []]

/-- A memory element with a `name` but no `access`, and valid start/size. -/
def memNoAccess : Element :=
  Element.mk "memory" [("name", "M3"), ("start", "0x0"), ("size", "0x100")] []

/-- The same family as `famBadThenGood` with only the well-formed device. -/
def famGoodOnly : Element :=
  Element.mk "family" [("Dvendor", "V:1"), ("Dfamily", "F")]
    [Element.mk "device" [("Dname", "GOOD")] []]

/-- A memory element with no `start`/`size` at all: its filter raises a
`KeyError` before touching the merge state. -/
def memBad : Element := Element.mk "memory" [("name", "BAD")] []

/-- A default RAM memory element not marked startup. -/
def ramPlain : Element :=
  Element.mk "memory"
    [("name", "IRAM1"), ("access", "rw"), ("start", "0x20000000"),
     ("size", "0x1000"), ("default", "1")] []

/-- A ROM memory element not marked startup. -/
def romPlain : Element :=
  Element.mk "memory"
    [("name", "IROM1"), ("access", "rx"), ("start", "0x0"), ("size", "0x1000")] []

/-! ## Dictionary lemmas -/

theorem dkeys_cons {α β : Type} (k0 : α) (v0 : β) (rest : List (α × β)) :
    dkeys ((k0, v0) :: rest) = k0 :: dkeys rest := rfl

theorem dvalues_cons {α β : Type} (k0 : α) (v0 : β) (rest : List (α × β)) :
    dvalues ((k0, v0) :: rest) = v0 :: dvalues rest := rfl

theorem dset_cons_eq {α β : Type} [DecidableEq α] (k : α) (v v0 : β)
    (rest : List (α × β)) : dset ((k, v0) :: rest) k v = (k, v) :: rest := by
  simp [dset]

theorem dset_cons_ne {α β : Type} [DecidableEq α] (k0 k : α) (v v0 : β)
    (rest : List (α × β)) (h : k0 ≠ k) :
    dset ((k0, v0) :: rest) k v = (k0, v0) :: dset rest k v := by
  simp [dset, h]

theorem ddel_cons_eq {α β : Type} [DecidableEq α] (k : α) (v0 : β)
    (rest : List (α × β)) : ddel ((k, v0) :: rest) k = rest := by
  simp [ddel]

theorem ddel_cons_ne {α β : Type} [DecidableEq α] (k0 k : α) (v0 : β)
    (rest : List (α × β)) (h : k0 ≠ k) :
    ddel ((k0, v0) :: rest) k = (k0, v0) :: ddel rest k := by
  simp [ddel, h]

theorem dget_cons_eq {α β : Type} [DecidableEq α] (k : α) (v0 : β)
    (rest : List (α × β)) : dget ((k, v0) :: rest) k = some v0 := by
  simp [dget]

theorem dget_cons_ne {α β : Type} [DecidableEq α] (k0 k : α) (v0 : β)
    (rest : List (α × β)) (h : k0 ≠ k) :
    dget ((k0, v0) :: rest) k = dget rest k := by
  simp [dget, h]

theorem dget_dset_self {α β : Type} [DecidableEq α] (m : List (α × β)) (k : α) (v : β) :
    dget (dset m k v) k = some v := by
  induction m with
  | nil => simp [dset, dget]
  | cons kv rest ih =>
    obtain ⟨k0, v0⟩ := kv
    by_cases h : k0 = k
    · simp [dset, dget, h]
    · simp [dset, dget, h, ih]

theorem dget_dset_ne {α β : Type} [DecidableEq α] (m : List (α × β)) (k k' : α) (v : β)
    (h : k' ≠ k) : dget (dset m k v) k' = dget m k' := by
  induction m with
  | nil =>
    simp only [dset, dget]
    rw [if_neg (fun hh => h hh.symm)]
  | cons kv rest ih =>
    obtain ⟨k0, v0⟩ := kv
    by_cases h0 : k0 = k
    · subst h0
      simp only [dset, if_pos rfl, dget]
      rw [if_neg (fun hh => h hh.symm), if_neg (fun hh => h hh.symm)]
    · simp only [dset, if_neg h0, dget]
      by_cases h1 : k0 = k'
      · rw [if_pos h1, if_pos h1]
      · rw [if_neg h1, if_neg h1, ih]

theorem dget_isSome_iff_mem_dkeys {α β : Type} [DecidableEq α] (m : List (α × β)) (k : α) :
    (dget m k).isSome = true ↔ k ∈ dkeys m := by
  induction m with
  | nil => simp [dget, dkeys]
  | cons kv rest ih =>
    obtain ⟨k0, v0⟩ := kv
    rw [dkeys_cons]
    by_cases h : k0 = k
    · subst h
      simp [dget]
    · simp only [dget, if_neg h, List.mem_cons]
      rw [ih]
      constructor
      · exact fun hm => Or.inr hm
      · rintro (rfl | hm)
        · exact absurd rfl h
        · exact hm

theorem dget_eq_none_iff {α β : Type} [DecidableEq α] (m : List (α × β)) (k : α) :
    dget m k = none ↔ k ∉ dkeys m := by
  rw [← dget_isSome_iff_mem_dkeys]
  cases dget m k <;> simp

theorem mem_dkeys_dset {α β : Type} [DecidableEq α] (m : List (α × β)) (k a : α) (v : β)
    (h : a ∈ dkeys (dset m k v)) : a = k ∨ a ∈ dkeys m := by
  by_cases ha : a = k
  · exact Or.inl ha
  · right
    rw [← dget_isSome_iff_mem_dkeys] at h ⊢
    rwa [dget_dset_ne m k a v ha] at h

theorem nodup_dkeys_dset {α β : Type} [DecidableEq α] (m : List (α × β)) (k : α) (v : β)
    (h : (dkeys m).Nodup) : (dkeys (dset m k v)).Nodup := by
  induction m with
  | nil => simp [dset, dkeys]
  | cons kv rest ih =>
    obtain ⟨k0, v0⟩ := kv
    rw [dkeys_cons, List.nodup_cons] at h
    by_cases h0 : k0 = k
    · subst h0
      rw [dset_cons_eq, dkeys_cons, List.nodup_cons]
      exact h
    · rw [dset_cons_ne k0 k v v0 rest h0, dkeys_cons, List.nodup_cons]
      refine ⟨?_, ih h.2⟩
      intro hmem
      rcases mem_dkeys_dset rest k k0 v hmem with h2 | h2
      · exact h0 h2
      · exact h.1 h2

theorem dkeys_ddel_sublist {α β : Type} [DecidableEq α] (m : List (α × β)) (k : α) :
    (dkeys (ddel m k)).Sublist (dkeys m) := by
  induction m with
  | nil => simp [ddel, dkeys]
  | cons kv rest ih =>
    obtain ⟨k0, v0⟩ := kv
    by_cases h : k0 = k
    · simp only [ddel, if_pos h, dkeys_cons]
      exact List.sublist_cons_self k0 (dkeys rest)
    · simp only [ddel, if_neg h, dkeys_cons]
      exact List.Sublist.cons₂ k0 ih

theorem nodup_dkeys_ddel {α β : Type} [DecidableEq α] (m : List (α × β)) (k : α)
    (h : (dkeys m).Nodup) : (dkeys (ddel m k)).Nodup :=
  h.sublist (dkeys_ddel_sublist m k)

theorem dget_ddel_self {α β : Type} [DecidableEq α] (m : List (α × β)) (k : α)
    (h : (dkeys m).Nodup) : dget (ddel m k) k = none := by
  induction m with
  | nil => simp [ddel, dget]
  | cons kv rest ih =>
    obtain ⟨k0, v0⟩ := kv
    rw [dkeys_cons, List.nodup_cons] at h
    by_cases h0 : k0 = k
    · subst h0
      simp only [ddel, if_pos rfl]
      exact (dget_eq_none_iff rest k0).2 h.1
    · simp only [ddel, if_neg h0, dget, if_neg h0]
      exact ih h.2

theorem dget_ddel_ne {α β : Type} [DecidableEq α] (m : List (α × β)) (k k' : α)
    (h : k' ≠ k) : dget (ddel m k) k' = dget m k' := by
  induction m with
  | nil => simp [ddel]
  | cons kv rest ih =>
    obtain ⟨k0, v0⟩ := kv
    by_cases h0 : k0 = k
    · subst h0
      rw [ddel_cons_eq, dget_cons_ne k0 k' v0 rest (fun hh => h hh.symm)]
    · rw [ddel_cons_ne k0 k v0 rest h0]
      by_cases h1 : k0 = k'
      · subst h1
        rw [dget_cons_eq, dget_cons_eq]
      · rw [dget_cons_ne k0 k' v0 (ddel rest k) h1,
          dget_cons_ne k0 k' v0 rest h1, ih]

theorem dvalues_ddel_sublist {α β : Type} [DecidableEq α] (m : List (α × β)) (k : α) :
    (dvalues (ddel m k)).Sublist (dvalues m) := by
  induction m with
  | nil => simp [ddel, dvalues]
  | cons kv rest ih =>
    obtain ⟨k0, v0⟩ := kv
    by_cases h : k0 = k
    · simp only [ddel, if_pos h, dvalues_cons]
      exact List.sublist_cons_self v0 (dvalues rest)
    · simp only [ddel, if_neg h, dvalues_cons]
      exact List.Sublist.cons₂ v0 ih

theorem dget_mem_dvalues {α β : Type} [DecidableEq α] (m : List (α × β)) (k : α) (v : β)
    (h : dget m k = some v) : v ∈ dvalues m := by
  induction m with
  | nil => simp [dget] at h
  | cons kv rest ih =>
    obtain ⟨k0, v0⟩ := kv
    rw [dvalues_cons]
    by_cases h0 : k0 = k
    · simp only [dget, if_pos h0] at h
      exact List.mem_cons.2 (Or.inl (Option.some_inj.1 h).symm)
    · simp only [dget, if_neg h0] at h
      exact List.mem_cons.2 (Or.inr (ih h))

theorem mem_dvalues_dset {α β : Type} [DecidableEq α] (m : List (α × β)) (k : α) (v w : β)
    (h : w ∈ dvalues (dset m k v)) : w = v ∨ w ∈ dvalues m := by
  induction m with
  | nil =>
    simp [dset, dvalues] at h
    exact Or.inl h
  | cons kv rest ih =>
    obtain ⟨k0, v0⟩ := kv
    by_cases h0 : k0 = k
    · rw [show dset ((k0, v0) :: rest) k v = (k0, v) :: rest by simp [dset, h0],
        dvalues_cons] at h
      rcases List.mem_cons.1 h with h | h
      · exact Or.inl h
      · exact Or.inr (List.mem_cons.2 (Or.inr h))
    · rw [show dset ((k0, v0) :: rest) k v = (k0, v0) :: dset rest k v by
        simp [dset, h0], dvalues_cons] at h
      rcases List.mem_cons.1 h with h | h
      · exact Or.inr (List.mem_cons.2 (Or.inl h))
      · rcases ih h with h2 | h2
        · exact Or.inl h2
        · exact Or.inr (List.mem_cons.2 (Or.inr h2))

theorem dget_dset_cases {α β : Type} [DecidableEq α] (m : List (α × β)) (k p : α) (v w : β)
    (h : dget (dset m k v) p = some w) : (p = k ∧ w = v) ∨ dget m p = some w := by
  by_cases hp : p = k
  · subst hp
    rw [dget_dset_self] at h
    exact Or.inl ⟨rfl, (Option.some_inj.1 h).symm⟩
  · rw [dget_dset_ne m k p v hp] at h
    exact Or.inr h

theorem dset_ne_nil {α β : Type} [DecidableEq α] (m : List (α × β)) (k : α) (v : β) :
    dset m k v ≠ [] := by
  cases m with
  | nil => simp [dset]
  | cons kv rest =>
    obtain ⟨k0, v0⟩ := kv
    by_cases h : k0 = k
    · subst h
      rw [dset_cons_eq]
      simp
    · rw [dset_cons_ne k0 k v v0 rest h]
      simp

/-! ## Claim C1 -/

/-- Claim C1 (code bug): on a processor-element merge collision the source's
`k not in to_elem` membership test examines the Element's child sub-elements
instead of its attribute dict, so it holds for every key and every ancestor
attribute is copied over the descendant: merging an outer processor carrying
`Dfpu="1"` into an inner one carrying the explicit value `Dfpu="0"` leaves
`Dfpu="1"`, although `_inherit_attributes` documents that only attributes not
defined in `to_elem` are copied. -/
theorem c1_inherit_overwrites_explicit_value :
    dget procInner.attrib "Dfpu" = some "0"
    ∧ (inheritAttributes procInner (some procOuter)).attrib
        = [("Pname", "core"), ("Dfpu", "1")]
    ∧ extractProcessors [[procOuter], [procInner]]
        = [Element.mk "processor" [("Pname", "core"), ("Dfpu", "1")] []] :=
  ⟨rfl, rfl, rfl⟩

/-! ## Claim C3 -/

/-- Homogeneity of the debug-entry collection: either exactly one global
(sentinel-keyed, no-`Pname`) entry, or only processor-specific entries. -/
def debugHomog (m : List (String × Element)) : Prop :=
  (∃ e, m = [("*", e)] ∧ hasPname e = false) ∨ (∀ v ∈ dvalues m, hasPname v = true)

theorem debugFilter_global (m : List (String × Element)) (e : Element)
    (h : hasPname e = false) : runFilter debugFilter m e = [("*", e)] := by
  rw [hasPname] at h
  have h2 : dget e.attrib "Pname" = none := by
    cases hc : dget e.attrib "Pname" with
    | none => rfl
    | some p => rw [hc] at h; simp at h
  simp [runFilter, debugFilter, h2]

theorem debugFilter_named (m : List (String × Element)) (e : Element)
    (h : hasPname e = true) (hm : debugHomog m) :
    runFilter debugFilter m e ≠ []
    ∧ ∀ v ∈ dvalues (runFilter debugFilter m e), hasPname v = true := by
  rw [hasPname, Option.isSome_iff_exists] at h
  obtain ⟨p, hp⟩ := h
  simp only [runFilter, debugFilter, hp]
  constructor
  · exact dset_ne_nil _ _ _
  · intro v hv
    rcases mem_dvalues_dset _ _ _ _ hv with rfl | hv2
    · rw [hasPname, hp]
      rfl
    · by_cases hstar : dmem m "*" = true
      · rw [if_pos hstar] at hv2
        simp [dvalues] at hv2
      · rw [if_neg hstar] at hv2
        rcases hm with ⟨e0, hm1, hm2⟩ | hall
        · exfalso
          apply hstar
          rw [hm1]
          rfl
        · exact hall v hv2

theorem debugFilter_preserves_homog (m : List (String × Element)) (e : Element)
    (h : debugHomog m) : debugHomog (runFilter debugFilter m e) := by
  by_cases hp : hasPname e = true
  · exact Or.inr (debugFilter_named m e hp h).2
  · rw [Bool.not_eq_true] at hp
    rw [debugFilter_global m e hp]
    exact Or.inl ⟨e, rfl, hp⟩

theorem foldDebugs_homog_from (es : List Element) :
    ∀ m : List (String × Element), debugHomog m →
      debugHomog (es.foldl (runFilter debugFilter) m) := by
  induction es with
  | nil => exact fun m h => h
  | cons e rest ih =>
    intro m h
    exact ih (runFilter debugFilter m e) (debugFilter_preserves_homog m e h)

theorem foldDebugs_homog (es : List Element) : debugHomog (foldDebugs es) :=
  foldDebugs_homog_from es [] (Or.inr (by intro v hv; simp [dvalues] at hv))

theorem foldDebugs_append_singleton (es : List Element) (e : Element) :
    foldDebugs (es ++ [e]) = runFilter debugFilter (foldDebugs es) e := by
  rw [foldDebugs, foldDebugs, List.foldl_append]
  rfl

/-- Claim C3: folding any sequence of debug elements leaves a homogeneous
collection (exactly one sentinel-keyed global entry, or only
processor-specific entries), matching the scope of the most recently processed
element; and the order [processor-specific A, global, processor-specific B]
leaves exactly one entry, keyed to B (with its default unit suffix "0"). -/
theorem c3_debug_scope_exclusivity :
    (∀ es : List Element, debugHomog (foldDebugs es))
    ∧ (∀ (es : List Element) (e : Element), hasPname e = false →
        foldDebugs (es ++ [e]) = [("*", e)])
    ∧ (∀ (es : List Element) (e : Element), hasPname e = true →
        foldDebugs (es ++ [e]) ≠ []
        ∧ ∀ v ∈ dvalues (foldDebugs (es ++ [e])), hasPname v = true)
    ∧ foldDebugs [dbgNamedA, dbgGlobal, dbgNamedB] = [("B0", dbgNamedB)] := by
  refine ⟨foldDebugs_homog, ?_, ?_, rfl⟩
  · intro es e h
    rw [foldDebugs_append_singleton]
    exact debugFilter_global _ e h
  · intro es e h
    rw [foldDebugs_append_singleton]
    exact debugFilter_named _ e h (foldDebugs_homog es)

/-- Witness for C3 at concrete inputs: a global element wipes the collection to
the single sentinel entry, and a named element leaves only named entries. -/
theorem c3_witness :
    foldDebugs ([dbgNamedA] ++ [dbgGlobal]) = [("*", dbgGlobal)]
    ∧ foldDebugs ([dbgGlobal] ++ [dbgNamedB]) ≠ [] := by
  refine ⟨c3_debug_scope_exclusivity.2.1 [dbgNamedA] dbgGlobal rfl, ?_⟩
  exact (c3_debug_scope_exclusivity.2.2.1 [dbgGlobal] dbgNamedB rfl).1

/-! ## Claim C9 -/

theorem splitFlashGo_spans (region : Region) (pageSize : Int) (img : Int × RamRange)
    (pa : PackFlashAlgo) (multi : Bool) (l : List (Int × Int)) :
    ∀ saw : Bool,
      ((splitFlashGo region pageSize img pa multi l saw).1).map
          (fun r => (r.start, r.endAddr, r.sectorSize))
        = spansSpec region.start region.endAddr l := by
  induction l with
  | nil => intro saw; rfl
  | cons hd tl ih =>
    intro saw
    obtain ⟨off, ss⟩ := hd
    cases tl with
    | nil =>
      by_cases hc : region.endAddr < region.start + off
      · simp [splitFlashGo, spansSpec, hc]
      · simp [splitFlashGo, spansSpec, hc]
    | cons hd2 tl2 =>
      obtain ⟨off2, ss2⟩ := hd2
      by_cases hc : region.start + off2 - 1 < region.start + off
      · simpa [splitFlashGo, spansSpec, hc] using ih saw
      · simpa [splitFlashGo, spansSpec, hc] using ih (if saw = false then true else saw)

/-- Claim C9: splitting a matched ROM region by the decoded sector table
produces one flash region per sector-table sub-range, in table order: sub-range
`j` spans from `region.start + offset_j` to `region.start + offset_(j+1) - 1`,
the last sub-range extends to the region's end, a sub-range whose end precedes
its start is dropped, and each region carries its sub-range's sector size; on
the concrete example, table `[(0, 0x1000), (0x10000, 0x2000)]` applied to
region `[0, 0x1FFFF]` yields `[0, 0xFFFF]` with sector size `0x1000` and
`[0x10000, 0x1FFFF]` with sector size `0x2000`. -/
theorem c9_flash_split_by_sector_table :
    (∀ (region : Region) (pageSize : Int) (img : Int × RamRange)
        (pa : PackFlashAlgo) (saw : Bool),
      ((splitFlashRegionBySectorSize region pageSize img pa saw).1).map
          (fun r => (r.start, r.endAddr, r.sectorSize))
        = spansSpec region.start region.endAddr pa.sectorSizes)
    ∧ ((splitFlashRegionBySectorSize bigRom 1024 (1024, ramZero) paSplit true).1).map
          (fun r => (r.start, r.endAddr, r.sectorSize))
        = [(0, 0xFFFF, 0x1000), (0x10000, 0x1FFFF, 0x2000)] :=
  ⟨fun region pageSize img pa saw =>
    splitFlashGo_spans region pageSize img pa
      (decide (pa.sectorSizes.length > 1)) pa.sectorSizes saw, rfl⟩

/-! ## Claim C10 -/

/-- Claim C10: a memory element that has a `name` attribute but no `access`
attribute is skipped in its entirety by `_build_memory_regions` (the lookup
raises a `KeyError` that is caught and logged), even when valid `start` and
`size` are present, so it contributes no region, no startup flag and no
default RAM. -/
theorem c10_named_memory_without_access_is_skipped
    (st : MemState) (e : Element) (n : String)
    (h1 : dget e.attrib "name" = some n) (h2 : dget e.attrib "access" = none) :
    buildMemoryStep st e = st
    ∧ (∀ es1 es2 : List Element,
        buildMemoryRegions (es1 ++ e :: es2) = buildMemoryRegions (es1 ++ es2)) := by
  have hstep : ∀ st0 : MemState, buildMemoryStep st0 e = st0 := by
    intro st0
    simp [buildMemoryStep, memHead, h1, h2]
  refine ⟨hstep st, ?_⟩
  intro es1 es2
  rw [buildMemoryRegions, buildMemoryRegions, List.foldl_append, List.foldl_append,
    List.foldl_cons, hstep]

/-- Witness for C10: the concrete element `memNoAccess` (named, no access,
valid start/size) leaves the build state untouched. -/
theorem c10_witness :
    buildMemoryStep { regions := [], sawStartup := false, defaultRam := none } memNoAccess
      = { regions := [], sawStartup := false, defaultRam := none }
    ∧ buildMemoryRegions [memNoAccess] = buildMemoryRegions [] := by
  have h := c10_named_memory_without_access_is_skipped
    { regions := [], sawStartup := false, defaultRam := none } memNoAccess "M3" rfl rfl
  exact ⟨h.1, h.2 [] []⟩

/-! ## Claim C8 -/

theorem getStartSize_inv (a : Element) (s z : Int) (h : getStartSize a = some (s, z)) :
    ∃ sstr zstr, dget a.attrib "start" = some sstr ∧ pyInt? sstr = some s
      ∧ dget a.attrib "size" = some zstr ∧ pyInt? zstr = some z := by
  cases h1 : dget a.attrib "start" with
  | none => simp [getStartSize, h1] at h
  | some sstr =>
    simp only [getStartSize, h1] at h
    cases h2 : pyInt? sstr with
    | none => simp [h2] at h
    | some sv =>
      simp only [h2] at h
      cases h3 : dget a.attrib "size" with
      | none => simp [h3] at h
      | some zstr =>
        simp only [h3] at h
        cases h4 : pyInt? zstr with
        | none => simp [h4] at h
        | some zv =>
          simp only [h4, Option.some_inj, Prod.mk.injEq] at h
          exact ⟨sstr, zstr, rfl, by rw [h2, h.1], rfl, by rw [h4, h.2]⟩

theorem findMatchingAlgo_eq_find (algos : List Element) (r : Region)
    (hp : ∀ a ∈ algos, (getStartSize a).isSome = true) :
    findMatchingAlgo algos r = Except.ok (algos.find? (fun a => algoContains a r)) := by
  induction algos with
  | nil => rfl
  | cons a rest ih =>
    have ha := hp a (List.mem_cons_self a rest)
    rw [Option.isSome_iff_exists] at ha
    obtain ⟨⟨s, z⟩, hsz⟩ := ha
    obtain ⟨sstr, zstr, h1, h2, h3, h4⟩ := getStartSize_inv a s z hsz
    have hrest : ∀ b ∈ rest, (getStartSize b).isSome = true :=
      fun b hb => hp b (List.mem_cons_of_mem a hb)
    by_cases hc : (s ≤ r.start ∧ r.start ≤ s + z - 1) ∧ (s ≤ r.endAddr ∧ r.endAddr ≤ s + z - 1)
    · have hcb : algoContains a r = true := by
        rw [algoContains, hsz]
        exact decide_eq_true hc
      rw [List.find?_cons_of_pos rest hcb]
      simp only [findMatchingAlgo, h1, h3, h2, h4]
      rw [if_pos]
      exact ⟨⟨hc.1.1, hc.1.2⟩, hc.2.1, hc.2.2⟩
    · have hcb : algoContains a r = false := by
        rw [algoContains, hsz]
        exact decide_eq_false hc
      rw [List.find?_cons_of_neg rest (by rw [hcb]; exact Bool.false_ne_true)]
      simp only [findMatchingAlgo, h1, h3, h2, h4]
      rw [if_neg]
      · exact ih hrest
      · exact fun hh => hc ⟨⟨hh.1.1, hh.1.2⟩, hh.2.1, hh.2.2⟩

/-- Claim C8: over well-formed algorithm elements, `_find_matching_algo`
returns exactly the first algorithm, in resolved list order, whose inclusive
range `[start, start+size-1]` fully contains both the region's start and end
addresses; and a region for which no algorithm matches survives
`_build_flash_regions` unchanged (it stays a plain ROM region). -/
theorem c8_first_containing_algo_match :
    (∀ (algos : List Element) (r : Region),
      (∀ a ∈ algos, (getStartSize a).isSome = true) →
      findMatchingAlgo algos r = Except.ok (algos.find? (fun a => algoContains a r)))
    ∧ (∀ (dram : Option Region) (load : String → Option PackFlashAlgo) (saw : Bool)
        (r : Region) (algos : List Element),
        findMatchingAlgo algos r = Except.ok none →
        buildFlashRegions [r] dram algos load saw = Except.ok ([r], saw)) := by
  refine ⟨findMatchingAlgo_eq_find, ?_⟩
  intro dram load saw r algos hnone
  cases dram with
  | none => rfl
  | some d =>
    by_cases ht : r.type = MemoryType.rom
    · simp [buildFlashRegions, flashRegionStep, ht, hnone, removeFirst]
    · simp [buildFlashRegions, flashRegionStep, ht, removeFirst]

/-- Witness for C8: with algorithms A = `[0, 0x7FFF]` (too small) and
B = `[0, 0xFFF]` in that order, the region `[0, 0xFFF]` selects the first
fully-containing algorithm, and with no containing algorithm the region is
kept as plain ROM. -/
theorem c8_witness :
    findMatchingAlgo [algoExplicitRam] romRegion0
      = Except.ok ([algoExplicitRam].find? (fun a => algoContains a romRegion0))
    ∧ buildFlashRegions [bigRom] (some romRegion0) [algoExplicitRam]
        (fun _ => some paDemo) false = Except.ok ([bigRom], false) := by
  constructor
  · exact c8_first_containing_algo_match.1 [algoExplicitRam] romRegion0
      (by intro a ha; simp at ha; subst ha; rfl)
  · exact c8_first_containing_algo_match.2 (some romRegion0) (fun _ => some paDemo)
      false bigRom [algoExplicitRam] rfl

/-! ## Claim C4 -/

/-- Counterexample to C4 as stated: a device with no default RAM, a ROM region
`[0, 0xFFF]`, and a matching algorithm that DOES specify an explicit
`RAMstart` (and `RAMsize`), whose file loads fine — yet `_build_flash_regions`
returns at its first check and the region stays a plain ROM region instead of
being converted to flash regions. -/
theorem c4_counterexample :
    findMatchingAlgo [algoExplicitRam] romRegion0 = Except.ok (some algoExplicitRam)
    ∧ dget algoExplicitRam.attrib "RAMstart" = some "0x20000000"
    ∧ romRegion0.type = MemoryType.rom
    ∧ buildFlashRegions [romRegion0] none [algoExplicitRam] (fun _ => some paDemo) false
        = Except.ok ([romRegion0], false) :=
  ⟨rfl, rfl, rfl, rfl⟩

/-- Claim C4 as amended: flash synthesis for the whole device is abandoned
(every region returned unchanged, all ROM regions left as plain ROM) whenever
the device has no default RAM — even when an algorithm element specifies an
explicit `RAMstart`.  When the device does have a default RAM, an algorithm
with an explicit, parseable `RAMstart` selects that RAM, with size equal to
the explicit `RAMsize` if given, else the remaining length of the region
containing `RAMstart`, else the 128 KiB fallback. -/
theorem c4_flash_abandoned_without_default_ram
    (regions : List Region) (dram : Region) (a : Element) (rs : String) (v : Int)
    (hrs : dget a.attrib "RAMstart" = some rs) (hv : pyInt? rs = some v) :
    (∀ (regions2 : List Region) (algos : List Element)
        (load : String → Option PackFlashAlgo) (saw : Bool),
      buildFlashRegions regions2 none algos load saw = Except.ok (regions2, saw))
    ∧ (∀ zs zv, dget a.attrib "RAMsize" = some zs → pyInt? zs = some zv →
        selectAlgoRam regions dram a = Except.ok { start := v, length := zv })
    ∧ (dget a.attrib "RAMsize" = none →
        (∀ cr, getContainingRegion regions v = some cr →
          selectAlgoRam regions dram a
            = Except.ok { start := v, length := cr.length - (v - cr.start) })
        ∧ (getContainingRegion regions v = none →
          selectAlgoRam regions dram a
            = Except.ok { start := v, length := 128 * 1024 })) := by
  refine ⟨fun regions2 algos load saw => rfl, ?_, ?_⟩
  · intro zs zv hzs hzv
    simp [selectAlgoRam, hrs, hv, hzs, hzv]
  · intro hno
    constructor
    · intro cr hcr
      simp [selectAlgoRam, hrs, hv, hno, hcr]
    · intro hcr
      simp [selectAlgoRam, hrs, hv, hno, hcr]

/-- Witness for C4's amended claim at concrete inputs. -/
theorem c4_witness :
    buildFlashRegions [romRegion0] none [] (fun _ => none) false
      = Except.ok ([romRegion0], false)
    ∧ selectAlgoRam [] romRegion0 algoExplicitRam
      = Except.ok { start := 0x20000000, length := 0x800 } := by
  have h := c4_flash_abandoned_without_default_ram
    [] romRegion0 algoExplicitRam "0x20000000" 0x20000000 rfl rfl
  exact ⟨h.1 [romRegion0] [] (fun _ => none) false, h.2.1 "0x800" 0x800 rfl rfl⟩

/-! ## Claim C7 -/

theorem procElemStep_default_ap (m : List (String × ProcessorInfo)) (e : Element)
    (hm : ∀ p pi, dget m p = some pi → pi.apAddress = APAddress.v1 (-1) 0) :
    ∀ p pi, dget (procElemStep m e) p = some pi →
      pi.apAddress = APAddress.v1 (-1) 0 := by
  intro p pi hp
  rw [procElemStep] at hp
  cases hname :
      (match dget e.attrib "Pname" with
      | some p => some p
      | none => dget e.attrib "Dcore") with
  | none =>
    rw [hname] at hp
    exact hm p pi hp
  | some pname =>
    simp only [hname] at hp
    cases hint : getIntAttribute e "Punits" (some 1) with
    | error msg =>
      simp only [hint] at hp
      exact hm p pi hp
    | ok punits =>
      simp only [hint] at hp
      by_cases hd : dmem m pname
      · rw [if_pos hd] at hp
        exact hm p pi hp
      · rw [if_neg hd] at hp
        rcases dget_dset_cases m pname p (mkProcessorInfo pname punits) pi hp with
          ⟨hpk, hpv⟩ | hold
        · rw [hpv]
          rfl
        · exact hm p pi hold

theorem handleProcessors_default_ap (processors : List Element) :
    ∀ p pi, dget (handleProcessors processors) p = some pi →
      pi.apAddress = APAddress.v1 (-1) 0 := by
  have hfold : ∀ (l : List Element) (m : List (String × ProcessorInfo)),
      (∀ p pi, dget m p = some pi → pi.apAddress = APAddress.v1 (-1) 0) →
      ∀ p pi, dget (l.foldl procElemStep m) p = some pi →
        pi.apAddress = APAddress.v1 (-1) 0 := by
    intro l
    induction l with
    | nil => exact fun m hm => hm
    | cons e rest ih =>
      intro m hm
      exact ih (procElemStep m e) (procElemStep_default_ap m e hm)
  intro p pi hp
  rw [handleProcessors] at hp
  by_cases hemp : (processors.foldl procElemStep []).isEmpty
  · rw [if_pos hemp] at hp
    rcases dget_dset_cases [] "unknown" p (mkProcessorInfo "unknown" 1) pi
        (by simpa [dset] using hp) with ⟨hpk, hpv⟩ | hold
    · rw [hpv]
      rfl
    · simp [dget] at hold
  · rw [if_neg hemp] at hp
    exact hfold processors []
      (by intro p0 pi0 h0; simp [dget] at h0) p pi hp

/-- Counterexample to C7 as stated: a device with one processor (`Dcore` =
`CM4`) and no debug elements at all leaves that processor's resolved AP
address at the `ProcessorInfo` placeholder `APv1Address(-1)`, not at the
claimed default of index-based AP 0 on debug port 0. -/
theorem c7_counterexample :
    dget (buildApsMap [] [] [procCM4] []).procs "CM4" = some (mkProcessorInfo "CM4" 1)
    ∧ (mkProcessorInfo "CM4" 1).apAddress = APAddress.v1 (-1) 0
    ∧ APAddress.v1 (-1) 0 ≠ APAddress.v1 0 0 :=
  ⟨rfl, rfl, by decide⟩

/-- Claim C7 as amended: a processor that a successfully-processed debug entry
targets with neither `__apid` nor `__ap` is resolved to index-based AP 0 on
debug port 0; but a processor assigned by no debug entry keeps the placeholder
address `APv1Address(-1)` — in particular, with no debug elements at all every
processor in the map keeps index -1, not the claimed default index 0. -/
theorem c7_default_ap_resolution :
    (∀ (dps aps procElems : List Element) (p : String) (pi : ProcessorInfo),
      dget (buildApsMap dps aps procElems []).procs p = some pi →
      pi.apAddress = APAddress.v1 (-1) 0)
    ∧ (∀ (vd : List Int) (ap : List (Int × APAddress))
        (m : List (String × ProcessorInfo)) (e : Element) (p : String)
        (proc0 : ProcessorInfo) (u ad : Int),
        dget e.attrib "Pname" = some p →
        dget m p = some proc0 →
        dget e.attrib "__apid" = none →
        dget e.attrib "__ap" = none →
        getIntAttribute e "Punit" (some 0) = Except.ok u →
        getIntAttribute e "address" (some 0) = Except.ok ad →
        ∃ pi, dget (debugStep vd ap m e) p = some pi
          ∧ pi.apAddress = APAddress.v1 0 0) := by
  constructor
  · intro dps aps procElems p pi hp
    rw [buildApsMap] at hp
    exact handleProcessors_default_ap procElems p pi hp
  · intro vd ap m e p proc0 u ad hpn hm hapid hap hu had
    have hdm : dmem m p = true := by rw [dmem, hm]; rfl
    simp only [debugStep, hpn, hapid, hap, hm, hu, had, hdm, Bool.true_eq_false,
      if_false]
    exact ⟨_, dget_dset_self _ p _, rfl⟩

/-- Witness for C7's amended claim at concrete inputs: the empty-debug default
and the default-AP debug entry. -/
theorem c7_witness :
    (mkProcessorInfo "CM4" 1).apAddress = APAddress.v1 (-1) 0
    ∧ (dget (debugStep [0] [] [("CM4", mkProcessorInfo "CM4" 1)] dbgDefaultCM4)
        "CM4").map ProcessorInfo.apAddress = some (APAddress.v1 0 0) := by
  constructor
  · exact c7_default_ap_resolution.1 [] [] [procCM4] "CM4" (mkProcessorInfo "CM4" 1) rfl
  · obtain ⟨pi, h1, h2⟩ := c7_default_ap_resolution.2 [0] []
      [("CM4", mkProcessorInfo "CM4" 1)] dbgDefaultCM4 "CM4" (mkProcessorInfo "CM4" 1)
      0 0 rfl rfl rfl rfl rfl rfl
    rw [h1]
    simp [h2]

/-! ## Claim C5 -/

/-- Counterexample to C5 as stated: a pack whose family holds a malformed
`device` element (no `Dname`) followed by a well-formed sibling.  The part
number extraction raises an uncaught `ValueError`, aborting the whole walk —
the well-formed sibling yields no device — although the sibling alone would
have parsed fine. -/
theorem c5_counterexample :
    parseDevices 4 false [] famBadThenGood
      = Except.error "ValueError: element is neither device nor variant"
    ∧ parseDevices 4 false [] famGoodOnly
      = Except.ok
          ([{ partNumber := "GOOD", families := ["V:1", "F"], processors := [],
              memories := [], algos := [], debugs := [], debugports := [],
              accessports := [] }], false) :=
  ⟨rfl, rfl⟩

/-- Claim C5 as amended: a malformed element inside the seven extracted
categories (an element whose filter raises without touching the state, e.g. a
missing or invalid numeric attribute) is skipped with a warning and the rest
of the device and pack processed unaffected; but a `device`/`variant` element
whose part number cannot be extracted (a device lacking `Dname`) raises an
error that nothing catches, aborting processing of the remaining devices of
the pack. -/
theorem c5_error_recovery_tiers :
    (∀ (σ : Type) (f : σ → Element → Except σ σ) (init : σ)
        (es1 es2 : List Element) (e : Element),
      (∀ s, f s e = Except.error s) →
      (es1 ++ e :: es2).foldl (runFilter f) init
        = (es1 ++ es2).foldl (runFilter f) init)
    ∧ (∀ (attrs : List (String × String)) (cs : List Element),
        dget attrs "Dname" = none →
        getPartNumber (Element.mk "device" attrs cs)
          = Except.error "ValueError: element is neither device nor variant")
    ∧ (∀ (stack : List DevInfo) (c : Element),
        (∀ f w, exceptIsOk (parseDevices f w stack c) = false) →
        ∀ (fuel : Nat) (warned : Bool) (cs1 cs2 : List Element),
          exceptIsOk (parseDevicesList fuel warned stack (cs1 ++ c :: cs2)) = false) := by
  refine ⟨?_, ?_, ?_⟩
  · intro σ f init es1 es2 e he
    rw [List.foldl_append, List.foldl_append, List.foldl_cons]
    have hskip : runFilter f (es1.foldl (runFilter f) init) e
        = es1.foldl (runFilter f) init := by
      simp only [runFilter, he]
    rw [hskip]
  · intro attrs cs hno
    simp [getPartNumber, Element.attrib, Element.tag, hno]
  · intro stack c hc fuel
    induction fuel with
    | zero => intro warned cs1 cs2; rfl
    | succ f ihf =>
      intro warned cs1 cs2
      cases cs1 with
      | nil =>
        cases hpd : parseDevices f warned stack c with
        | error msg => simp [parseDevicesList, hpd, exceptIsOk]
        | ok ds =>
          have := hc f warned
          rw [hpd] at this
          simp [exceptIsOk] at this
      | cons c1 cs1t =>
        cases hpd : parseDevices f warned stack c1 with
        | error msg => simp [parseDevicesList, hpd, exceptIsOk]
        | ok ds =>
          cases hrec : parseDevicesList f ds.2 stack (cs1t ++ c :: cs2) with
          | error msg => simp [parseDevicesList, hpd, hrec, exceptIsOk]
          | ok rest =>
            have := ihf ds.2 cs1t cs2
            rw [hrec] at this
            simp [exceptIsOk] at this

/-- Witness for C5's amended claim at concrete inputs: a memory element with
no `start` is skipped without affecting the merge of its siblings, and a
device lacking `Dname` aborts the remaining children of its family. -/
theorem c5_witness :
    ([memLow] ++ memBad :: [memHigh]).foldl (runFilter (memFilter true))
        { map := [], warned := false }
      = ([memLow] ++ [memHigh]).foldl (runFilter (memFilter true))
        { map := [], warned := false }
    ∧ getPartNumber (Element.mk "device" [] [])
        = Except.error "ValueError: element is neither device nor variant"
    ∧ exceptIsOk (parseDevicesList 3 false []
        ([Element.mk "device" [("Dname", "GOOD")] []]
          ++ Element.mk "device" [] [] :: [])) = false := by
  refine ⟨?_, c5_error_recovery_tiers.2.1 [] [] rfl, ?_⟩
  · exact c5_error_recovery_tiers.1 MemMergeState (memFilter true)
      { map := [], warned := false } [memLow] [memHigh] memBad
      (fun s => rfl)
  · refine c5_error_recovery_tiers.2.2 [] (Element.mk "device" [] []) ?_ 3 false
      [Element.mk "device" [("Dname", "GOOD")] []] []
    intro f w
    cases f with
    | zero => rfl
    | succ f2 => rfl

/-! ## Claim C6 -/

theorem countBoot_nil : countBoot [] = 0 := rfl

theorem countBoot_cons (r : Region) (rs : List Region) :
    countBoot (r :: rs) = (if r.isBootMemory then 1 else 0) + countBoot rs := by
  rw [countBoot, countBoot, List.filter_cons]
  cases hb : r.isBootMemory <;> simp <;> omega

theorem countBoot_append (a b : List Region) :
    countBoot (a ++ b) = countBoot a + countBoot b := by
  rw [countBoot, countBoot, countBoot, List.filter_append, List.length_append]

theorem countBoot_eq_zero (l : List Region) (h : ∀ r ∈ l, r.isBootMemory = false) :
    countBoot l = 0 := by
  rw [countBoot, List.length_eq_zero]
  rw [List.filter_eq_nil]
  intro r hr
  rw [h r hr]
  exact Bool.false_ne_true

theorem removeFirst_sublist {α : Type} [DecidableEq α] (l : List α) (a : α) :
    (removeFirst l a).Sublist l := by
  induction l with
  | nil => exact List.Sublist.refl []
  | cons x xs ih =>
    rw [removeFirst]
    by_cases h : x = a
    · rw [if_pos h]
      exact List.sublist_cons_self x xs
    · rw [if_neg h]
      exact List.Sublist.cons₂ x ih

theorem foldl_removeFirst_sublist (ds : List Region) :
    ∀ l : List Region, (ds.foldl removeFirst l).Sublist l := by
  induction ds with
  | nil => exact fun l => List.Sublist.refl l
  | cons d rest ih =>
    intro l
    rw [List.foldl_cons]
    exact (ih (removeFirst l d)).trans (removeFirst_sublist l d)

/-- With the device-wide startup flag already set, the splitter never forces
the boot flag: every synthesized flash region keeps its source region's flag,
and the flag stays set. -/
theorem splitFlashGo_saw_true (region : Region) (pageSize : Int)
    (img : Int × RamRange) (pa : PackFlashAlgo) (multi : Bool) :
    ∀ l : List (Int × Int),
      (∀ r ∈ (splitFlashGo region pageSize img pa multi l true).1,
        r.isBootMemory = region.isBootMemory)
      ∧ (splitFlashGo region pageSize img pa multi l true).2 = true := by
  intro l
  induction l with
  | nil => exact ⟨by intro r hr; simp [splitFlashGo] at hr, rfl⟩
  | cons hd tl ih =>
    obtain ⟨off, ss⟩ := hd
    cases tl with
    | nil =>
      by_cases hc : region.endAddr < region.start + off
      · constructor
        · intro r hr
          simp [splitFlashGo, hc] at hr
        · simp [splitFlashGo, hc]
      · constructor
        · intro r hr
          simp only [splitFlashGo, if_neg hc] at hr
          rcases List.mem_cons.1 hr with rfl | hr2
          · rfl
          · simp [splitFlashGo] at hr2
        · simp [splitFlashGo, hc]
    | cons hd2 tl2 =>
      obtain ⟨off2, ss2⟩ := hd2
      by_cases hc : region.start + off2 - 1 < region.start + off
      · constructor
        · intro r hr
          simp only [splitFlashGo, if_pos hc] at hr
          exact ih.1 r hr
        · simp only [splitFlashGo, if_pos hc]
          exact ih.2
      · constructor
        · intro r hr
          simp only [splitFlashGo, if_neg hc] at hr
          rcases List.mem_cons.1 hr with rfl | hr2
          · rfl
          · exact ih.1 r hr2
        · simp only [splitFlashGo, if_neg hc]
          exact ih.2

/-- For a source region not flagged as boot memory: with the flag already set
the split produces no boot region; with it unset, either nothing is emitted
(flag stays unset) or exactly one boot region is emitted (and the flag is
set). -/
theorem splitFlashGo_countBoot (region : Region) (pageSize : Int)
    (img : Int × RamRange) (pa : PackFlashAlgo) (multi : Bool)
    (hreg : region.isBootMemory = false) :
    ∀ l : List (Int × Int),
      countBoot (splitFlashGo region pageSize img pa multi l true).1 = 0
      ∧ ((countBoot (splitFlashGo region pageSize img pa multi l false).1 = 0
          ∧ (splitFlashGo region pageSize img pa multi l false).2 = false)
        ∨ (countBoot (splitFlashGo region pageSize img pa multi l false).1 = 1
          ∧ (splitFlashGo region pageSize img pa multi l false).2 = true)) := by
  have htrue : ∀ l : List (Int × Int),
      countBoot (splitFlashGo region pageSize img pa multi l true).1 = 0 := by
    intro l
    apply countBoot_eq_zero
    intro r hr
    rw [(splitFlashGo_saw_true region pageSize img pa multi l).1 r hr]
    exact hreg
  have hs2 : ∀ l2 : List (Int × Int),
      (splitFlashGo region pageSize img pa multi l2 true).2 = true :=
    fun l2 => (splitFlashGo_saw_true region pageSize img pa multi l2).2
  intro l
  refine ⟨htrue l, ?_⟩
  induction l with
  | nil => exact Or.inl ⟨rfl, rfl⟩
  | cons hd tl ih =>
    obtain ⟨off, ss⟩ := hd
    cases tl with
    | nil =>
      by_cases hc : region.endAddr < region.start + off
      · simpa only [splitFlashGo, if_pos hc] using ih
      · right
        simp [splitFlashGo, hc, countBoot_cons, countBoot_nil]
    | cons hd2 tl2 =>
      obtain ⟨off2, ss2⟩ := hd2
      by_cases hc : region.start + off2 - 1 < region.start + off
      · simpa only [splitFlashGo, if_pos hc] using ih
      · have h1 := htrue ((off2, ss2) :: tl2)
        have h2 := hs2 ((off2, ss2) :: tl2)
        simp [splitFlashGo] at h1 h2
        right
        simp [splitFlashGo, hc, countBoot_cons, h1, h2]

/-- One `_build_flash_regions` iteration preserves the boot-count invariant
when its region is unflagged. -/
theorem flashRegionStep_boot (allRegions : List Region) (dram : Region)
    (algos : List Element) (load : String → Option PackFlashAlgo)
    (st : FlashBuildState) (r : Region) (hr : r.isBootMemory = false)
    (h1 : countBoot st.toAdd ≤ 1)
    (h2 : st.sawStartup = false → countBoot st.toAdd = 0)
    (st2 : FlashBuildState)
    (hok : flashRegionStep allRegions dram algos load st r = Except.ok st2) :
    countBoot st2.toAdd ≤ 1 ∧ (st2.sawStartup = false → countBoot st2.toAdd = 0) := by
  rw [flashRegionStep] at hok
  by_cases ht : r.type ≠ MemoryType.rom
  · rw [if_pos ht] at hok
    cases hok
    exact ⟨h1, h2⟩
  · rw [if_neg ht] at hok
    cases hfind : findMatchingAlgo algos r with
    | error msg => rw [hfind] at hok; exact absurd hok (by simp)
    | ok found =>
      rw [hfind] at hok
      cases found with
      | none =>
        simp only at hok
        cases hok
        exact ⟨h1, h2⟩
      | some algoElem =>
        simp only at hok
        cases hname : dget algoElem.attrib "name" with
        | none => rw [hname] at hok; exact absurd hok (by simp)
        | some fname =>
          simp only [hname] at hok
          cases hload : load fname with
          | none =>
            simp only [hload] at hok
            cases hok
            exact ⟨h1, h2⟩
          | some pa =>
            simp only [hload] at hok
            cases hpg :
                (if pa.pageSize ≤ 32 then
                  match (pa.sectorSizes.map Prod.snd).min? with
                  | some m => Except.ok m
                  | none => Except.error "ValueError: min of empty sequence"
                else Except.ok pa.pageSize : Except String Int) with
            | error msg =>
              simp only [hpg] at hok
              exact absurd hok (by simp)
            | ok pageSize =>
              simp only [hpg] at hok
              cases hram : selectAlgoRam allRegions dram algoElem with
              | error msg =>
                simp only [hram] at hok
                exact absurd hok (by simp)
              | ok ram =>
                simp only [hram] at hok
                simp only [Except.ok.injEq] at hok
                subst hok
                simp only [countBoot_append, splitFlashRegionBySectorSize]
                cases hsaw : st.sawStartup with
                | true =>
                  have hz := (splitFlashGo_countBoot r pageSize (pageSize, ram) pa
                    (decide (pa.sectorSizes.length > 1)) hr pa.sectorSizes).1
                  have hs2 := (splitFlashGo_saw_true r pageSize (pageSize, ram) pa
                    (decide (pa.sectorSizes.length > 1)) pa.sectorSizes).2
                  rw [hz, hs2]
                  refine ⟨by omega, ?_⟩
                  intro hcontra
                  exact absurd hcontra (by simp)
                | false =>
                  have hz0 : countBoot st.toAdd = 0 := h2 hsaw
                  rcases (splitFlashGo_countBoot r pageSize (pageSize, ram) pa
                      (decide (pa.sectorSizes.length > 1)) hr pa.sectorSizes).2 with
                    ⟨hc0, hf⟩ | ⟨hc1, htr⟩
                  · rw [hc0, hf, hz0]
                    exact ⟨by omega, fun _ => rfl⟩
                  · rw [hc1, htr, hz0]
                    refine ⟨by omega, ?_⟩
                    intro hcontra
                    exact absurd hcontra (by simp)

/-- The `_build_flash_regions` fold preserves the boot-count invariant over a
list of unflagged regions. -/
theorem flashFold_boot (allRegions : List Region) (dram : Region)
    (algos : List Element) (load : String → Option PackFlashAlgo) :
    ∀ (l : List Region) (st : FlashBuildState),
      (∀ r ∈ l, r.isBootMemory = false) →
      countBoot st.toAdd ≤ 1 →
      (st.sawStartup = false → countBoot st.toAdd = 0) →
      ∀ st2, l.foldlM (flashRegionStep allRegions dram algos load) st = Except.ok st2 →
        countBoot st2.toAdd ≤ 1
        ∧ (st2.sawStartup = false → countBoot st2.toAdd = 0) := by
  intro l
  induction l with
  | nil =>
    intro st hl h1 h2 st2 hok
    simp only [List.foldlM_nil, pure, Except.pure, Except.ok.injEq] at hok
    subst hok
    exact ⟨h1, h2⟩
  | cons r rest ih =>
    intro st hl h1 h2 st2 hok
    rw [List.foldlM_cons] at hok
    cases hstep : flashRegionStep allRegions dram algos load st r with
    | error msg =>
      rw [hstep] at hok
      simp only [bind, Except.bind] at hok
      exact absurd hok (by simp)
    | ok st1 =>
      rw [hstep] at hok
      simp only [bind, Except.bind] at hok
      have hinv := flashRegionStep_boot allRegions dram algos load st r
        (hl r (List.mem_cons_self r rest)) h1 h2 st1 hstep
      exact ih st1 (fun r2 hr2 => hl r2 (List.mem_cons_of_mem r hr2))
        hinv.1 hinv.2 st2 hok

/-- Every region produced by `_build_memory_regions` from elements without an
explicit startup flag is unflagged, and the device-wide flag stays unset. -/
theorem buildMemoryRegions_no_startup (memElems : List Element)
    (hns : ∀ e ∈ memElems, getBoolAttribute e "startup" false = false) :
    (buildMemoryRegions memElems).sawStartup = false
    ∧ ∀ r ∈ (buildMemoryRegions memElems).regions, r.isBootMemory = false := by
  rw [buildMemoryRegions]
  have hfold : ∀ (l : List Element) (st : MemState),
      (∀ e ∈ l, getBoolAttribute e "startup" false = false) →
      st.sawStartup = false → (∀ r ∈ st.regions, r.isBootMemory = false) →
      (l.foldl buildMemoryStep st).sawStartup = false
      ∧ ∀ r ∈ (l.foldl buildMemoryStep st).regions, r.isBootMemory = false := by
    intro l
    induction l with
    | nil => exact fun st _ hs hr => ⟨hs, hr⟩
    | cons e rest ih =>
      intro st hl hs hr
      rw [List.foldl_cons]
      refine ih (buildMemoryStep st e) (fun e2 he2 => hl e2 (List.mem_cons_of_mem e he2))
        ?_ ?_
      · rw [buildMemoryStep]
        cases hh : memHead e with
        | raised => exact hs
        | skipped => exact hs
        | ok name access ty =>
          cases hsz : getStartSize e with
          | none => exact hs
          | some sz =>
            obtain ⟨start, size⟩ := sz
            simp only [hl e (List.mem_cons_self e rest), hs, Bool.or_false]
      · rw [buildMemoryStep]
        cases hh : memHead e with
        | raised => exact hr
        | skipped => exact hr
        | ok name access ty =>
          cases hsz : getStartSize e with
          | none => exact hr
          | some sz =>
            obtain ⟨start, size⟩ := sz
            intro r hrm
            simp only at hrm
            rcases List.mem_append.1 hrm with hrm2 | hrm2
            · exact hr r hrm2
            · rw [List.mem_singleton.1 hrm2]
              exact hl e (List.mem_cons_self e rest)
  exact hfold memElems { regions := [], sawStartup := false, defaultRam := none }
    hns rfl (by intro r hr; simp at hr)

/-- Counterexample to C6 as stated: two memory elements both explicitly marked
startup give a final memory map with two regions carrying the boot-memory
flag. -/
theorem c6_counterexample :
    getBoolAttribute ramStartup1 "startup" false = true
    ∧ getBoolAttribute ramStartup2 "startup" false = true
    ∧ (match buildDeviceRegions [ramStartup1, ramStartup2] [] (fun _ => none) with
      | .ok (rs, _) => countBoot rs
      | .error _ => 0) = 2 :=
  ⟨rfl, rfl, rfl⟩

/-- Claim C6 as amended: the synthesized boot-memory flag is forced onto the
first flash region synthesized device-wide only while no memory element was
ever marked startup (with the device-wide flag set, every split region keeps
its source region's own flag); and when no memory element of the device is
marked startup, at most one region of the final memory map carries the flag.
Explicitly startup-marked elements each keep the flag, so several regions may
carry it (see the counterexample). -/
theorem c6_boot_flag_assignment (memElems algoElems : List Element)
    (load : String → Option PackFlashAlgo)
    (hns : ∀ e ∈ memElems, getBoolAttribute e "startup" false = false) :
    (buildMemoryRegions memElems).sawStartup = false
    ∧ (∀ r ∈ (buildMemoryRegions memElems).regions, r.isBootMemory = false)
    ∧ (∀ rs saw2, buildDeviceRegions memElems algoElems load = Except.ok (rs, saw2) →
        countBoot rs ≤ 1)
    ∧ (∀ (region : Region) (pageSize : Int) (img : Int × RamRange)
        (pa : PackFlashAlgo),
        ∀ r ∈ (splitFlashRegionBySectorSize region pageSize img pa true).1,
          r.isBootMemory = region.isBootMemory) := by
  obtain ⟨hsaw, hflags⟩ := buildMemoryRegions_no_startup memElems hns
  refine ⟨hsaw, hflags, ?_, ?_⟩
  · intro rs saw2 hok
    simp only [buildDeviceRegions, buildFlashRegions, hsaw] at hok
    cases hdr : (buildMemoryRegions memElems).defaultRam with
    | none =>
      simp only [hdr, Except.ok.injEq, Prod.mk.injEq] at hok
      rw [← hok.1]
      rw [countBoot_eq_zero _ hflags]
      omega
    | some dram =>
      simp only [hdr] at hok
      cases hfold : (buildMemoryRegions memElems).regions.foldlM
          (flashRegionStep (buildMemoryRegions memElems).regions dram algoElems load)
          { toDelete := [], toAdd := [], sawStartup := false } with
      | error msg => rw [hfold] at hok; exact absurd hok (by simp)
      | ok stf =>
        rw [hfold] at hok
        simp only [Except.ok.injEq, Prod.mk.injEq] at hok
        have hinv := flashFold_boot (buildMemoryRegions memElems).regions dram
          algoElems load (buildMemoryRegions memElems).regions
          { toDelete := [], toAdd := [], sawStartup := false }
          hflags (by rw [countBoot]; simp) (fun _ => by rw [countBoot]; simp)
          stf hfold
        rw [← hok.1, countBoot_append]
        have hdel : countBoot (stf.toDelete.foldl removeFirst
            (buildMemoryRegions memElems).regions) = 0 := by
          apply countBoot_eq_zero
          intro r hrm
          exact hflags r
            ((foldl_removeFirst_sublist stf.toDelete
              (buildMemoryRegions memElems).regions).subset hrm)
        rw [hdel]
        omega
  · intro region pageSize img pa r hrm
    rw [splitFlashRegionBySectorSize] at hrm
    exact (splitFlashGo_saw_true region pageSize img pa
      (decide (pa.sectorSizes.length > 1)) pa.sectorSizes).1 r hrm

/-- Witness for C6's amended claim at concrete inputs: a default RAM and a ROM
with a matching algorithm, neither marked startup. -/
theorem c6_witness :
    countBoot (buildMemoryRegions [ramPlain, romPlain]).regions = 0
    ∧ (match buildDeviceRegions [ramPlain, romPlain] [algoExplicitRam]
          (fun _ => some paDemo) with
      | .ok (rs, _) => countBoot rs ≤ 1
      | .error _ => False) := by
  have h := c6_boot_flag_assignment [ramPlain, romPlain] [algoExplicitRam]
    (fun _ => some paDemo)
    (by
      intro e he
      rcases List.mem_cons.1 he with rfl | he2
      · rfl
      · rw [List.mem_singleton.1 he2]
        rfl)
  refine ⟨countBoot_eq_zero _ h.2.1, ?_⟩
  have hisok : exceptIsOk (buildDeviceRegions [ramPlain, romPlain] [algoExplicitRam]
      (fun _ => some paDemo)) = true := rfl
  cases hok : buildDeviceRegions [ramPlain, romPlain] [algoExplicitRam]
      (fun _ => some paDemo) with
  | ok pr =>
    obtain ⟨rs, saw⟩ := pr
    exact h.2.2.1 rs saw hok
  | error msg =>
    rw [hok] at hisok
    exact absurd hisok (by simp [exceptIsOk])

/-! ## Claim C2 -/

/-- Characterization of the eviction loop: with parseable stored elements it
completes, deletes exactly the overlapping keys of the snapshot (regardless of
their processor name), warns only on same-processor evictions, and preserves
key uniqueness. -/
theorem evictLoop_char (s z : Int) (pn : Option String) :
    ∀ (ks : List (String × Option String)) (st : MemMergeState),
      (dkeys st.map).Nodup →
      (∀ v ∈ dvalues st.map, (getStartSize v).isSome = true) →
      ∃ st2, evictLoop true s z pn st ks = Except.ok st2
        ∧ (∀ k, dget st2.map k =
            if k ∈ ks ∧ overlapOf (dget st.map k) s z = true then none
            else dget st.map k)
        ∧ ((∀ k2 v, k2 ∈ ks → dget st.map k2 = some v → overlapB v s z = true →
              pn ≠ k2.2) → st2.warned = st.warned)
        ∧ (dkeys st2.map).Nodup := by
  intro ks
  induction ks with
  | nil =>
    intro st hnd hvals
    refine ⟨st, rfl, ?_, fun _ => rfl, hnd⟩
    intro k
    simp
  | cons k0 ks ih =>
    intro st hnd hvals
    cases hk : dget st.map k0 with
    | none =>
      obtain ⟨st2, heq, hform, hw, hnd2⟩ := ih st hnd hvals
      refine ⟨st2, ?_, ?_, ?_, hnd2⟩
      · simp only [evictLoop, hk]
        exact heq
      · intro k
        rw [hform k]
        by_cases hkk : k = k0
        · subst hkk
          simp [hk, overlapOf]
        · simp [List.mem_cons, hkk]
      · intro hno
        exact hw (fun k2 v hk2 => hno k2 v (List.mem_cons_of_mem k0 hk2))
    | some prev =>
      have hprev : (getStartSize prev).isSome = true :=
        hvals prev (dget_mem_dvalues st.map k0 prev hk)
      rw [Option.isSome_iff_exists] at hprev
      obtain ⟨⟨ps, pz⟩, hpsz⟩ := hprev
      by_cases hov :
          (ps ≤ s ∧ s < ps + pz - 1) ∨ (ps ≤ s + z - 1 ∧ s + z - 1 < ps + pz - 1)
      · have hovB : overlapB prev s z = true := by
          rw [overlapB, hpsz]
          exact decide_eq_true hov
        by_cases hwcase : pn = k0.2 ∧ st.warned = false
        · obtain ⟨st2, heq, hform, hw, hnd2⟩ :=
            ih { map := ddel st.map k0, warned := true }
              (nodup_dkeys_ddel st.map k0 hnd)
              (fun v hv => hvals v ((dvalues_ddel_sublist st.map k0).subset hv))
          refine ⟨st2, ?_, ?_, ?_, hnd2⟩
          · simp only [evictLoop, hk, hpsz]
            rw [if_pos hov, if_pos hwcase, if_pos trivial]
            exact heq
          · intro k
            rw [hform k]
            by_cases hkk : k = k0
            · subst hkk
              rw [dget_ddel_self st.map k hnd]
              simp [hk, overlapOf, hovB]
            · rw [dget_ddel_ne st.map k0 k hkk]
              simp [List.mem_cons, hkk]
          · intro hno
            exact absurd hwcase.1
              (hno k0 prev (List.mem_cons_self k0 ks) hk hovB)
        · obtain ⟨st2, heq, hform, hw, hnd2⟩ :=
            ih { st with map := ddel st.map k0 }
              (nodup_dkeys_ddel st.map k0 hnd)
              (fun v hv => hvals v ((dvalues_ddel_sublist st.map k0).subset hv))
          refine ⟨st2, ?_, ?_, ?_, hnd2⟩
          · simp only [evictLoop, hk, hpsz]
            rw [if_pos hov, if_neg hwcase]
            exact heq
          · intro k
            rw [hform k]
            by_cases hkk : k = k0
            · subst hkk
              rw [dget_ddel_self st.map k hnd]
              simp [hk, overlapOf, hovB]
            · rw [dget_ddel_ne st.map k0 k hkk]
              simp [List.mem_cons, hkk]
          · intro hno
            refine (hw ?_).trans rfl
            intro k2 v hk2 hv hovv
            by_cases hkk : k2 = k0
            · subst hkk
              rw [dget_ddel_self st.map k2 hnd] at hv
              exact absurd hv (by simp)
            · rw [dget_ddel_ne st.map k0 k2 hkk] at hv
              exact hno k2 v (List.mem_cons_of_mem k0 hk2) hv hovv
      · have hovB : overlapB prev s z = false := by
          rw [overlapB, hpsz]
          exact decide_eq_false hov
        obtain ⟨st2, heq, hform, hw, hnd2⟩ := ih st hnd hvals
        refine ⟨st2, ?_, ?_, ?_, hnd2⟩
        · simp only [evictLoop, hk, hpsz]
          rw [if_neg hov]
          exact heq
        · intro k
          rw [hform k]
          by_cases hkk : k = k0
          · subst hkk
            simp [hk, overlapOf, hovB]
          · simp [List.mem_cons, hkk]
        · intro hno
          exact hw (fun k2 v hk2 => hno k2 v (List.mem_cons_of_mem k0 hk2))

/-- Characterization of one memory-merge step (`memFilter`) on parseable
state. -/
theorem memFilter_char (st : MemMergeState) (e : Element) (s z : Int)
    (hnd : (dkeys st.map).Nodup)
    (hvals : ∀ v ∈ dvalues st.map, (getStartSize v).isSome = true)
    (hsz : getStartSize e = some (s, z)) :
    ∃ st2, memFilter true st e = Except.ok st2
      ∧ dget st2.map (memInfo e s z) = some e
      ∧ (∀ k, k ≠ memInfo e s z →
          dget st2.map k =
            if overlapOf (dget st.map k) s z = true then none else dget st.map k)
      ∧ ((∀ k v, dget st.map k = some v → overlapB v s z = true →
            (memInfo e s z).2 ≠ k.2) → st2.warned = st.warned)
      ∧ (dkeys st2.map).Nodup := by
  have main : ∀ st1 : MemMergeState,
      st1.warned = st.warned →
      (dkeys st1.map).Nodup →
      (∀ v ∈ dvalues st1.map, (getStartSize v).isSome = true) →
      dget st1.map (memInfo e s z) = none →
      (∀ k, k ≠ memInfo e s z → dget st1.map k = dget st.map k) →
      ∃ st2, (match evictLoop true s z (memInfo e s z).2 st1 (dkeys st1.map) with
          | .error st3 => (Except.error st3 : Except MemMergeState MemMergeState)
          | .ok st3 => Except.ok { st3 with map := dset st3.map (memInfo e s z) e })
          = Except.ok st2
        ∧ dget st2.map (memInfo e s z) = some e
        ∧ (∀ k, k ≠ memInfo e s z →
            dget st2.map k =
              if overlapOf (dget st.map k) s z = true then none else dget st.map k)
        ∧ ((∀ k v, dget st.map k = some v → overlapB v s z = true →
              (memInfo e s z).2 ≠ k.2) → st2.warned = st.warned)
        ∧ (dkeys st2.map).Nodup := by
    intro st1 hwst hnd1 hvals1 hnone hsame
    obtain ⟨st3, heq, hform, hw, hnd3⟩ :=
      evictLoop_char s z (memInfo e s z).2 (dkeys st1.map) st1 hnd1 hvals1
    refine ⟨{ st3 with map := dset st3.map (memInfo e s z) e }, by rw [heq], ?_, ?_, ?_, ?_⟩
    · exact dget_dset_self st3.map (memInfo e s z) e
    · intro k hkne
      rw [dget_dset_ne st3.map (memInfo e s z) k e hkne, hform k, hsame k hkne]
      cases hgk : dget st.map k with
      | none =>
        have h1 : dget st1.map k = none := (hsame k hkne).trans hgk
        have hmem : k ∉ dkeys st1.map := (dget_eq_none_iff st1.map k).1 h1
        simp [overlapOf, hmem, h1]
      | some v =>
        have h1 : dget st1.map k = some v := (hsame k hkne).trans hgk
        have hmem : k ∈ dkeys st1.map := by
          rw [← dget_isSome_iff_mem_dkeys, h1]
          rfl
        simp [overlapOf, hmem, h1]
    · intro hno
      rw [← hwst]
      apply hw
      intro k2 v hk2 hv hovv
      by_cases hkk : k2 = memInfo e s z
      · subst hkk
        rw [hnone] at hv
        exact absurd hv (by simp)
      · rw [hsame k2 hkk] at hv
        exact hno k2 v hv hovv
    · exact nodup_dkeys_dset st3.map (memInfo e s z) e hnd3
  by_cases hm : dmem st.map (memInfo e s z)
  · obtain ⟨st2, heq, h1, h2, h3, h4⟩ :=
      main { st with map := ddel st.map (memInfo e s z) } rfl
        (nodup_dkeys_ddel st.map (memInfo e s z) hnd)
        (fun v hv => hvals v ((dvalues_ddel_sublist st.map (memInfo e s z)).subset hv))
        (dget_ddel_self st.map (memInfo e s z) hnd)
        (fun k hkne => dget_ddel_ne st.map (memInfo e s z) k hkne)
    refine ⟨st2, ?_, h1, h2, h3, h4⟩
    simp only [memFilter, hsz]
    rw [if_pos hm]
    exact heq
  · obtain ⟨st2, heq, h1, h2, h3, h4⟩ :=
      main st rfl hnd hvals
        ((dget_eq_none_iff st.map (memInfo e s z)).2
          (by
            intro hmem
            apply hm
            rw [dmem, ← dget_isSome_iff_mem_dkeys] at *
            exact hmem))
        (fun k _ => rfl)
    refine ⟨st2, ?_, h1, h2, h3, h4⟩
    simp only [memFilter, hsz]
    rw [if_neg hm]
    exact heq

/-- The eviction loop never clears the per-pack warned flag. -/
theorem evictLoop_warned_mono (partOk : Bool) (s z : Int) (pn : Option String) :
    ∀ (ks : List (String × Option String)) (st : MemMergeState),
      st.warned = true →
      (∀ st2, evictLoop partOk s z pn st ks = Except.ok st2 → st2.warned = true)
      ∧ (∀ st2, evictLoop partOk s z pn st ks = Except.error st2 →
          st2.warned = true) := by
  intro ks
  induction ks with
  | nil =>
    intro st h
    constructor
    · intro st2 heq
      simp only [evictLoop, Except.ok.injEq] at heq
      rw [← heq]
      exact h
    · intro st2 heq
      simp only [evictLoop] at heq
      exact absurd heq (by simp)
  | cons k0 ks ih =>
    intro st h
    cases hk : dget st.map k0 with
    | none =>
      constructor
      · intro st2 heq
        simp only [evictLoop, hk] at heq
        exact (ih st h).1 st2 heq
      · intro st2 heq
        simp only [evictLoop, hk] at heq
        exact (ih st h).2 st2 heq
    | some prev =>
      cases hpsz : getStartSize prev with
      | none =>
        constructor
        · intro st2 heq
          simp only [evictLoop, hk, hpsz] at heq
          exact absurd heq (by simp)
        · intro st2 heq
          simp only [evictLoop, hk, hpsz, Except.error.injEq] at heq
          rw [← heq]
          exact h
      | some psz =>
        obtain ⟨ps, pz⟩ := psz
        have hwc : ¬(pn = k0.2 ∧ st.warned = false) := by
          intro hcontra
          rw [h] at hcontra
          exact absurd hcontra.2 (by simp)
        by_cases hov :
            (ps ≤ s ∧ s < ps + pz - 1) ∨ (ps ≤ s + z - 1 ∧ s + z - 1 < ps + pz - 1)
        · constructor
          · intro st2 heq
            simp only [evictLoop, hk, hpsz] at heq
            rw [if_pos hov, if_neg hwc] at heq
            exact (ih { st with map := ddel st.map k0 } h).1 st2 heq
          · intro st2 heq
            simp only [evictLoop, hk, hpsz] at heq
            rw [if_pos hov, if_neg hwc] at heq
            exact (ih { st with map := ddel st.map k0 } h).2 st2 heq
        · constructor
          · intro st2 heq
            simp only [evictLoop, hk, hpsz] at heq
            rw [if_neg hov] at heq
            exact (ih st h).1 st2 heq
          · intro st2 heq
            simp only [evictLoop, hk, hpsz] at heq
            rw [if_neg hov] at heq
            exact (ih st h).2 st2 heq

/-- One caught memory-filter step never clears the warned flag. -/
theorem memFilter_warned_mono (partOk : Bool) (st : MemMergeState) (e : Element)
    (h : st.warned = true) : (runFilter (memFilter partOk) st e).warned = true := by
  rw [runFilter]
  cases hsz : getStartSize e with
  | none => simp only [memFilter, hsz]; exact h
  | some sz =>
    obtain ⟨s, z⟩ := sz
    simp only [memFilter, hsz]
    by_cases hm : dmem st.map (memInfo e s z)
    · rw [if_pos hm]
      have hst1 : ({ st with map := ddel st.map (memInfo e s z) } :
          MemMergeState).warned = true := h
      cases heq : evictLoop partOk s z (memInfo e s z).2
          { st with map := ddel st.map (memInfo e s z) }
          (dkeys ({ st with map := ddel st.map (memInfo e s z) } :
            MemMergeState).map) with
      | error st2 =>
        simp only [heq]
        exact (evictLoop_warned_mono partOk s z (memInfo e s z).2 _ _ hst1).2 st2 heq
      | ok st2 =>
        simp only [heq]
        exact (evictLoop_warned_mono partOk s z (memInfo e s z).2 _ _ hst1).1 st2 heq
    · rw [if_neg hm]
      cases heq : evictLoop partOk s z (memInfo e s z).2 st (dkeys st.map) with
      | error st2 =>
        simp only [heq]
        exact (evictLoop_warned_mono partOk s z (memInfo e s z).2 _ _ h).2 st2 heq
      | ok st2 =>
        simp only [heq]
        exact (evictLoop_warned_mono partOk s z (memInfo e s z).2 _ _ h).1 st2 heq

/-- Over a whole pack-parse session, at most one overlap warning is emitted,
however many overlaps occur. -/
theorem memRun_bound :
    ∀ (evs : List MemEvent) (st : MemMergeState) (c : Nat),
      c ≤ 1 → (st.warned = false → c = 0) → (memRun (st, c) evs).2 ≤ 1 := by
  intro evs
  induction evs with
  | nil => exact fun st c h1 _ => h1
  | cons ev evs ih =>
    intro st c h1 h2
    cases ev with
    | reset => exact ih { st with map := [] } c h1 h2
    | elem partOk e =>
      simp only [memRun]
      cases hw : st.warned with
      | true =>
        have hw2 := memFilter_warned_mono partOk st e hw
        rw [if_neg (by simp)]
        refine ih _ (c + 0) (by omega) ?_
        intro hf
        rw [hf] at hw2
        exact absurd hw2 (by simp)
      | false =>
        have hc0 : c = 0 := h2 hw
        subst hc0
        cases hw2 : (runFilter (memFilter partOk) st e).warned with
        | true =>
          rw [if_pos ⟨rfl, rfl⟩]
          refine ih _ (0 + 1) (by omega) ?_
          intro hf
          rw [hf] at hw2
          exact absurd hw2 (by simp)
        | false =>
          rw [if_neg (by simp)]
          exact ih _ (0 + 0) (by omega) (fun _ => rfl)

/-- Claim C2: folding a parseable memory element with range
`[s, s+z-1]` into the merge state deletes any existing entry with the exact
same `(name, processor-name)` key (the key now maps to the new element),
evicts every entry whose stored range overlaps per the source's predicate
regardless of its processor name, inserts the new element, leaves
non-overlapping entries untouched, performs only silent evictions when no
same-processor overlap exists (the warned flag is unchanged), and over any
pack-parse session the overlap warning is emitted at most once. -/
theorem c2_memory_identity_merge (st : MemMergeState) (e : Element) (s z : Int)
    (hnd : (dkeys st.map).Nodup)
    (hvals : ∀ v ∈ dvalues st.map, (getStartSize v).isSome = true)
    (hsz : getStartSize e = some (s, z)) :
    (∃ st2, memFilter true st e = Except.ok st2
      ∧ dget st2.map (memInfo e s z) = some e
      ∧ (∀ k, k ≠ memInfo e s z →
          dget st2.map k =
            if overlapOf (dget st.map k) s z = true then none else dget st.map k)
      ∧ ((∀ k v, dget st.map k = some v → overlapB v s z = true →
            (memInfo e s z).2 ≠ k.2) → st2.warned = st.warned))
    ∧ ∀ evs : List MemEvent, (memRun ({ map := [], warned := false }, 0) evs).2 ≤ 1 := by
  constructor
  · obtain ⟨st2, a, b, c, d, _⟩ := memFilter_char st e s z hnd hvals hsz
    exact ⟨st2, a, b, c, d⟩
  · intro evs
    exact memRun_bound evs { map := [], warned := false } 0 (by omega) (fun _ => rfl)

/-- Witness for C2 at the spec's concrete example: the later element
`[0x800, 0x17FF]` evicts the earlier overlapping `[0x0, 0xFFF]` entry and is
inserted under its own key. -/
theorem c2_witness :
    memInfo memHigh 0x800 0x1000 = ("M2", none)
    ∧ (match memFilter true { map := [(("M1", none), memLow)], warned := false }
          memHigh with
      | .ok st2 => dget st2.map ("M2", none) = some memHigh
          ∧ dget st2.map ("M1", none) = none
      | .error _ => False) := by
  refine ⟨rfl, ?_⟩
  obtain ⟨⟨st2, heq, hins, hform, _⟩, _⟩ := c2_memory_identity_merge
    { map := [(("M1", none), memLow)], warned := false } memHigh 0x800 0x1000
    (by simp [dkeys])
    (by
      intro v hv
      simp [dvalues] at hv
      subst hv
      rfl)
    rfl
  rw [heq]
  refine ⟨hins, ?_⟩
  have h := hform ("M1", none) (by decide)
  rw [h]
  rfl

end CmsisPackModel
